import Mathlib

/-!
Verification of the link-reconciliation engine of scripts/manage-skills.py.

Shallow embedding: paths are lists of name segments (already canonical, as
produced by Path.resolve on the roots); the filesystem is a map from paths
to entries (regular file, directory, or symbolic link carrying its target
path). Directory listings of the source tree and the symlink-creation
permission are environment data: the engine only reads them, never writes
them (it never lists a destination directory). Symbolic-link resolution
follows chains with explicit fuel; exhaustion models an OSError from
resolution (symlink loop / permission failure). Interactive input is a
list of lines; reading from an empty list models EOFError raised by
input(). A run result carries the filesystem reached so far, the remaining
input, the per-entry report (one element per printed per-entry line) and
an optional uncaught error that aborted the iteration.
-/

namespace ManageSkills

inductive Entry : Type
  | file : Entry
  | dir : Entry
  | symlink : List String → Entry
deriving DecidableEq, Repr

abbrev Path := List String

structure FS : Type where
  entries : Path → Option Entry

structure Env : Type where
  children : Path → Option (List String)
  symlinkOK : Path → Bool

inductive PyError : Type
  | eofError : PyError
  | fileNotFoundError : PyError
  | fileExistsError : PyError
deriving DecidableEq, Repr

/-- LinkState from the spec: classification of a destination path relative
to a desired source path. -/
inductive LinkState : Type
  | Absent : LinkState
  | LinkedCorrect : LinkState
  | LinkedElsewhere : LinkState
  | Occupied : LinkState
deriving DecidableEq, Repr

/-- Per-entry outcome of an install or uninstall pass (the spec's Outcome;
in the code each variant corresponds to one printed per-entry line and one
counter increment). -/
inductive Outcome : Type
  | Installed : Outcome
  | AlreadyInstalled : Outcome
  | Removed : Outcome
  | NotInstalled : Outcome
  | Skipped : String → Outcome
  | Invalid : String → Outcome
deriving DecidableEq, Repr

def FS.set (fs : FS) (p : Path) (e : Option Entry) : FS :=
  ⟨fun q => if q = p then e else fs.entries q⟩

/-- Canonical resolution of a path, following symlink chains
(Path.resolve). A non-symlink (including a nonexistent path, as with
strict=False) resolves to itself; fuel exhaustion models an OSError. -/
def resolvePath (fs : FS) : Nat → Path → Option Path
  | 0, _ => none
  | fuel + 1, p =>
    match fs.entries p with
    | some (Entry.symlink t) => resolvePath fs fuel t
    | _ => some p

/-- Path.is_symlink(): lstat-level check, does not follow the link. -/
def isSymlink (fs : FS) (p : Path) : Bool :=
  match fs.entries p with
  | some (Entry.symlink _) => true
  | _ => false

/-- Path.exists(): follows symlinks; a dangling link does not exist. -/
def pathExists (fs : FS) (fuel : Nat) (p : Path) : Bool :=
  match resolvePath fs fuel p with
  | some q => (fs.entries q).isSome
  | none => false

/-- Path.is_dir(): follows symlinks; OSError yields false. -/
def isDir (fs : FS) (fuel : Nat) (p : Path) : Bool :=
  match resolvePath fs fuel p with
  | some q => decide (fs.entries q = some Entry.dir)
  | none => false

/-- is_valid_skill (manage-skills.py line 65): the directory contains
SKILL.md. -/
def is_valid_skill (fs : FS) (fuel : Nat) (skill_path : Path) : Bool :=
  pathExists fs fuel (skill_path ++ ["SKILL.md"])

/-- is_our_symlink (manage-skills.py line 70): the destination is a
symlink whose canonical resolution equals the canonical resolution of the
target; OSError during resolution yields false. -/
def is_our_symlink (fs : FS) (fuel : Nat) (link_path target_path : Path) : Bool :=
  if isSymlink fs link_path = false then false
  else
    match resolvePath fs fuel link_path, resolvePath fs fuel target_path with
    | some a, some b => decide (a = b)
    | _, _ => false

/-- create_symlink (manage-skills.py line 80): symlink_to raises
FileExistsError on an existing destination (caught, returning false);
environment may deny symlink creation (privilege), also returning false. -/
def create_symlink (env : Env) (fs : FS) (source dest : Path) : FS × Bool :=
  if (fs.entries dest).isSome then (fs, false)
  else if env.symlinkOK dest then (fs.set dest (some (Entry.symlink source)), true)
  else (fs, false)

def unlink (fs : FS) (p : Path) : FS := fs.set p none

/-- Path.mkdir(parents=True, exist_ok=True) on the destination root:
creates it when absent, succeeds when an existing directory, raises
FileExistsError when occupied by a non-directory. -/
def mkdirs (fs : FS) (fuel : Nat) (p : Path) : Except PyError FS :=
  if fs.entries p = none then Except.ok (fs.set p (some Entry.dir))
  else if isDir fs fuel p then Except.ok fs
  else Except.error PyError.fileExistsError

/-- The Link Prober of the spec: the branch order shared by install
(lines 128-157), uninstall (lines 260-271) and status (line 336). A pure
read: it returns only a classification, no filesystem. -/
def probe (fs : FS) (fuel : Nat) (dest src : Path) : LinkState :=
  if is_our_symlink fs fuel dest src then LinkState.LinkedCorrect
  else if isSymlink fs dest then LinkState.LinkedElsewhere
  else if pathExists fs fuel dest then LinkState.Occupied
  else LinkState.Absent

/-- Whitespace stripped by str.strip(): space, tab, newline, carriage
return, vertical tab, form feed. -/
def pySpace (c : Char) : Bool :=
  c.toNat = 32 || c.toNat = 9 || c.toNat = 10 || c.toNat = 13 || c.toNat = 11 || c.toNat = 12

def pyLowerChar (c : Char) : Char :=
  if 65 ≤ c.toNat && c.toNat ≤ 90 then Char.ofNat (c.toNat + 32) else c

/-- response.strip().lower() from the prompt handling (lines 139, 208). -/
def pyStripLower (s : String) : String :=
  ⟨(((s.data.dropWhile pySpace).reverse.dropWhile pySpace).reverse).map pyLowerChar⟩

structure StepRes : Type where
  fs : FS
  inputs : List String
  out : Option Outcome
  err : Option PyError

structure RunRes : Type where
  fs : FS
  inputs : List String
  report : List (String × Outcome)
  err : Option PyError

/-- The per-entry install body shared verbatim by install_skills
(lines 128-164) and install_commands (lines 197-233): already linked /
linked elsewhere (interactive replace with y/n prompt; input() at EOF
raises EOFError) / occupied / absent. -/
def installLinkStep (env : Env) (fuel : Nat) (source target_link : Path)
    (interactive : Bool) (fs : FS) (inputs : List String) : StepRes :=
  if is_our_symlink fs fuel target_link source then
    ⟨fs, inputs, some Outcome.AlreadyInstalled, none⟩
  else if isSymlink fs target_link then
    if interactive then
      match inputs with
      | [] => ⟨fs, inputs, none, some PyError.eofError⟩
      | response :: rest =>
        if pyStripLower response = "y" then
          let fs := unlink fs target_link
          let c := create_symlink env fs source target_link
          if c.2 then ⟨c.1, rest, some Outcome.Installed, none⟩
          else ⟨c.1, rest, some (Outcome.Skipped "create failed"), none⟩
        else ⟨fs, rest, some (Outcome.Skipped "declined replace"), none⟩
    else ⟨fs, inputs, some (Outcome.Skipped "points elsewhere"), none⟩
  else if pathExists fs fuel target_link then
    ⟨fs, inputs, some (Outcome.Skipped "exists as file/directory"), none⟩
  else
    let c := create_symlink env fs source target_link
    if c.2 then ⟨c.1, inputs, some Outcome.Installed, none⟩
    else ⟨c.1, inputs, some (Outcome.Skipped "create failed"), none⟩

/-- Per-entry gating before the shared install body: silently skipped
(no report line, no count), reported invalid, or passed through. -/
inductive GateR : Type
  | skip : GateR
  | report : Outcome → GateR
  | go : GateR
deriving DecidableEq, Repr

/-- The install iteration skeleton shared by install_skills (lines
114-166) and install_commands (lines 188-235); an uncaught error stops the
iteration. -/
def installGenLoop (env : Env) (fuel : Nat) (srcRoot destRoot : Path)
    (interactive : Bool) (gate : FS → String → GateR) :
    FS → List String → List String → RunRes
  | fs, inputs, [] => ⟨fs, inputs, [], none⟩
  | fs, inputs, name :: rest =>
    match gate fs name with
    | GateR.skip => installGenLoop env fuel srcRoot destRoot interactive gate fs inputs rest
    | GateR.report o =>
      let r := installGenLoop env fuel srcRoot destRoot interactive gate fs inputs rest
      ⟨r.fs, r.inputs, (name, o) :: r.report, r.err⟩
    | GateR.go =>
      let s := installLinkStep env fuel (srcRoot ++ [name]) (destRoot ++ [name])
        interactive fs inputs
      match s.err with
      | some e => ⟨s.fs, s.inputs, [], some e⟩
      | none =>
        let r := installGenLoop env fuel srcRoot destRoot interactive gate s.fs s.inputs rest
        ⟨r.fs, r.inputs, (s.out.map (fun o => (name, o))).toList ++ r.report, r.err⟩

/-- Lexicographic order on code points, as Python compares strings. -/
def charListLe : List Char → List Char → Bool
  | [], _ => true
  | _ :: _, [] => false
  | a :: as, b :: bs =>
    if a.toNat < b.toNat then true
    else if b.toNat < a.toNat then false
    else charListLe as bs

def strLe (a b : String) : Bool := charListLe a.data b.data

/-- sorted(...) on entry names. -/
def sortedNames (l : List String) : List String :=
  List.insertionSort (fun a b => strLe a b = true) l

/-- Gate of install_skills / check_status skills section: a non-directory
entry is silently skipped (lines 114-116); a directory without SKILL.md is
reported invalid and counted skipped (lines 121-124). -/
def skillsGate (fs : FS) (fuel : Nat) (srcRoot : Path) (name : String) : GateR :=
  if isDir fs fuel (srcRoot ++ [name]) = false then GateR.skip
  else if is_valid_skill fs fuel (srcRoot ++ [name]) = false then
    GateR.report (Outcome.Invalid "no SKILL.md")
  else GateR.go

/-- install_skills (lines 95-166): missing source root is non-fatal with
zero progress; the destination root is created; the source root is listed
(iterdir raises when it cannot be listed) and each entry processed. -/
def install_skills (env : Env) (fs : FS) (fuel : Nat) (srcRoot destRoot : Path)
    (interactive : Bool) (inputs : List String) : RunRes :=
  if pathExists fs fuel srcRoot = false then ⟨fs, inputs, [], none⟩
  else
    match mkdirs fs fuel destRoot with
    | Except.error e => ⟨fs, inputs, [], some e⟩
    | Except.ok fs1 =>
      match env.children srcRoot with
      | none => ⟨fs1, inputs, [], some PyError.fileNotFoundError⟩
      | some names =>
        installGenLoop env fuel srcRoot destRoot interactive
          (fun f n => skillsGate f fuel srcRoot n) fs1 inputs (sortedNames names)

def strEndsWith (s suffix : String) : Bool := suffix.data.isSuffixOf s.data

def strStartsWith (s pre : String) : Bool := pre.data.isPrefixOf s.data

/-- glob("*.md"): names under the root matching *.md (dotfiles excluded);
empty when the root is missing or not a directory, without raising. -/
def globMd (env : Env) (p : Path) : List String :=
  match env.children p with
  | none => []
  | some ns => ns.filter (fun n => strEndsWith n ".md" && !(strStartsWith n "."))

/-- Gate of install_commands / uninstall_commands / check_status commands
section: README.md is silently skipped (lines 192-193). -/
def commandsGate (name : String) : GateR :=
  if name = "README.md" then GateR.skip else GateR.go

/-- install_commands (lines 169-235): like install_skills over the sorted
*.md glob, README.md excluded, no validity check. -/
def install_commands (env : Env) (fs : FS) (fuel : Nat) (srcRoot destRoot : Path)
    (interactive : Bool) (inputs : List String) : RunRes :=
  if pathExists fs fuel srcRoot = false then ⟨fs, inputs, [], none⟩
  else
    match mkdirs fs fuel destRoot with
    | Except.error e => ⟨fs, inputs, [], some e⟩
    | Except.ok fs1 =>
      installGenLoop env fuel srcRoot destRoot interactive
        (fun _ n => commandsGate n) fs1 inputs (sortedNames (globMd env srcRoot))

/-- The per-entry uninstall body shared verbatim by uninstall_skills
(lines 260-271) and uninstall_commands (lines 299-310). -/
def uninstallLinkStep (fs : FS) (fuel : Nat) (source target : Path) : FS × Outcome :=
  if is_our_symlink fs fuel target source then (unlink fs target, Outcome.Removed)
  else if isSymlink fs target then (fs, Outcome.Skipped "points elsewhere")
  else if pathExists fs fuel target then (fs, Outcome.Skipped "not a symlink")
  else (fs, Outcome.NotInstalled)

/-- The uninstall iteration skeleton shared by uninstall_skills (lines
253-271) and uninstall_commands (lines 291-310); gate false means a
silent skip. -/
def uninstallGenLoop (fuel : Nat) (srcRoot destRoot : Path)
    (gate : FS → String → Bool) : FS → List String → RunRes
  | fs, [] => ⟨fs, [], [], none⟩
  | fs, name :: rest =>
    if gate fs name then
      let s := uninstallLinkStep fs fuel (srcRoot ++ [name]) (destRoot ++ [name])
      let r := uninstallGenLoop fuel srcRoot destRoot gate s.1 rest
      ⟨r.fs, [], (name, s.2) :: r.report, r.err⟩
    else uninstallGenLoop fuel srcRoot destRoot gate fs rest

/-- uninstall_skills (lines 238-273): missing destination root short
circuits with zero progress; the source root is then listed without an
existence guard (iterdir raises when it is missing). -/
def uninstall_skills (env : Env) (fs : FS) (fuel : Nat) (srcRoot destRoot : Path) : RunRes :=
  if pathExists fs fuel destRoot = false then ⟨fs, [], [], none⟩
  else
    match env.children srcRoot with
    | none => ⟨fs, [], [], some PyError.fileNotFoundError⟩
    | some names =>
      uninstallGenLoop fuel srcRoot destRoot
        (fun f n => isDir f fuel (srcRoot ++ [n])) fs (sortedNames names)

/-- uninstall_commands (lines 276-312): glob never raises, so a missing
source root just yields an empty iteration. -/
def uninstall_commands (env : Env) (fs : FS) (fuel : Nat) (srcRoot destRoot : Path) : RunRes :=
  if pathExists fs fuel destRoot = false then ⟨fs, [], [], none⟩
  else
    uninstallGenLoop fuel srcRoot destRoot
      (fun _ n => decide (n ≠ "README.md")) fs (sortedNames (globMd env srcRoot))

/-- check_status (lines 315-366): the skills section lists the source root
without an existence guard (iterdir raises when missing) and silently
drops entries that are not directories or lack SKILL.md; the commands
section reports every sorted non-README *.md name. Purely a read: no
filesystem is returned because none is modified. -/
def check_status (env : Env) (fs : FS) (fuel : Nat)
    (skillsSrc skillsDest commandsSrc commandsDest : Path) :
    Except PyError (List (String × Bool) × List (String × Bool)) :=
  match env.children skillsSrc with
  | none => Except.error PyError.fileNotFoundError
  | some names =>
    let skillsRep := (sortedNames names).filterMap fun n =>
      if isDir fs fuel (skillsSrc ++ [n]) && is_valid_skill fs fuel (skillsSrc ++ [n]) then
        some (n, is_our_symlink fs fuel (skillsDest ++ [n]) (skillsSrc ++ [n]))
      else none
    let commandsRep := (sortedNames (globMd env commandsSrc)).filterMap fun n =>
      if n = "README.md" then none
      else some (n, is_our_symlink fs fuel (commandsDest ++ [n]) (commandsSrc ++ [n]))
    Except.ok (skillsRep, commandsRep)

/-- The installed counter of install_skills / install_commands: both the
Installed and the AlreadyInstalled lines increment it. -/
def countsInstalled : List (String × Outcome) → Nat
  | [] => 0
  | (_, Outcome.Installed) :: r => countsInstalled r + 1
  | (_, Outcome.AlreadyInstalled) :: r => countsInstalled r + 1
  | _ :: r => countsInstalled r

/-- The skipped counter of install: Skipped and Invalid lines increment
it. -/
def countsSkipped : List (String × Outcome) → Nat
  | [] => 0
  | (_, Outcome.Skipped _) :: r => countsSkipped r + 1
  | (_, Outcome.Invalid _) :: r => countsSkipped r + 1
  | _ :: r => countsSkipped r

/-- The removed counter of uninstall. -/
def countsRemoved : List (String × Outcome) → Nat
  | [] => 0
  | (_, Outcome.Removed) :: r => countsRemoved r + 1
  | _ :: r => countsRemoved r

/-- The installed counter of check_status. -/
def countsTrue : List (String × Bool) → Nat
  | [] => 0
  | (_, true) :: r => countsTrue r + 1
  | _ :: r => countsTrue r

/-! Concrete fixtures used by witnesses and counterexamples. -/

/-- A destination area exercising all four probe classes against source
["src"]. -/
def c1fs : FS :=
  ⟨fun p =>
    if p = ["src"] then some Entry.dir
    else if p = ["dLink"] then some (Entry.symlink ["src"])
    else if p = ["dElse"] then some (Entry.symlink ["other"])
    else if p = ["dLoop"] then some (Entry.symlink ["dLoop"])
    else if p = ["dFile"] then some Entry.file
    else none⟩

/-- Shared witness scenario: a source tree with a valid skill (alpha), a
valid skill whose destination is occupied by a regular file (occ), and a
stray regular file (file.txt). -/
def wSrc : Path := ["repo", "skills"]

def wDest : Path := ["home", "skills"]

def wEnv : Env :=
  ⟨fun p => if p = wSrc then some ["alpha", "occ", "file.txt", "els"] else none,
    fun _ => true⟩

def wFS : FS :=
  ⟨fun p =>
    if p = wSrc then some Entry.dir
    else if p = wSrc ++ ["alpha"] then some Entry.dir
    else if p = wSrc ++ ["alpha", "SKILL.md"] then some Entry.file
    else if p = wSrc ++ ["occ"] then some Entry.dir
    else if p = wSrc ++ ["occ", "SKILL.md"] then some Entry.file
    else if p = wSrc ++ ["file.txt"] then some Entry.file
    else if p = wSrc ++ ["els"] then some Entry.dir
    else if p = wSrc ++ ["els", "SKILL.md"] then some Entry.file
    else if p = ["other"] then some Entry.dir
    else if p = wDest then some Entry.dir
    else if p = wDest ++ ["occ"] then some Entry.file
    else if p = wDest ++ ["els"] then some (Entry.symlink ["other"])
    else none⟩

/-- Fixture for absence handling: a source tree with one valid skill and
an absent destination root. -/
def c3Src : Path := ["r", "skills"]

def c3Dest : Path := ["h", "skills"]

def c3fs : FS :=
  ⟨fun p =>
    if p = c3Src then some Entry.dir
    else if p = c3Src ++ ["alpha"] then some Entry.dir
    else if p = c3Src ++ ["alpha", "SKILL.md"] then some Entry.file
    else none⟩

def c3env : Env := ⟨fun p => if p = c3Src then some ["alpha"] else none, fun _ => true⟩

/-- Fixture for absence handling: destination root present, source root
missing (its listing fails). -/
def c3bfs : FS := ⟨fun p => if p = c3Dest then some Entry.dir else none⟩

def c3benv : Env := ⟨fun _ => none, fun _ => true⟩

/-- Fixture for status surfacing: one directory entry without SKILL.md. -/
def c4fs : FS :=
  ⟨fun p =>
    if p = c3Src then some Entry.dir
    else if p = c3Src ++ ["bad"] then some Entry.dir
    else none⟩

def c4env : Env := ⟨fun p => if p = c3Src then some ["bad"] else none, fun _ => true⟩

/-! Characterization machinery for runs over a symlink-free base tree. -/

/-- The filesystem obtained from base by creating, for each listed name,
a link at destRoot/name pointing to srcRoot/name. -/
def applyCreated (base : FS) (srcRoot destRoot : Path) (l : List String) : FS :=
  ⟨fun p =>
    match l.find? (fun m => decide (p = destRoot ++ [m])) with
    | some m => some (Entry.symlink (srcRoot ++ [m]))
    | none => base.entries p⟩

/-- The per-entry outcome an install pass produces over a symlink-free
base: gated entries as gated, occupied destinations skipped, absent ones
installed or skipped depending on link-creation permission. -/
def planOutcome (env : Env) (base : FS) (g0 : String → GateR) (destRoot : Path)
    (n : String) : Option Outcome :=
  match g0 n with
  | GateR.skip => none
  | GateR.report o => some o
  | GateR.go =>
    match base.entries (destRoot ++ [n]) with
    | none =>
      if env.symlinkOK (destRoot ++ [n]) then some Outcome.Installed
      else some (Outcome.Skipped "create failed")
    | some (Entry.symlink _) => some Outcome.AlreadyInstalled
    | some _ => some (Outcome.Skipped "exists as file/directory")

def installsFrom (env : Env) (base : FS) (g0 : String → GateR) (destRoot : Path)
    (names : List String) : List String :=
  names.filter
    (fun n => decide (planOutcome env base g0 destRoot n = some Outcome.Installed))

def planReport (env : Env) (base : FS) (g0 : String → GateR) (destRoot : Path)
    (names : List String) : List (String × Outcome) :=
  names.filterMap (fun n => (planOutcome env base g0 destRoot n).map (fun o => (n, o)))

/-- Second-run outcome: an Installed entry reappears as
AlreadyInstalled; everything else repeats. -/
def mapAlready (o : Outcome) : Outcome :=
  if o = Outcome.Installed then Outcome.AlreadyInstalled else o

def planReportSecond (env : Env) (base : FS) (g0 : String → GateR) (destRoot : Path)
    (names : List String) : List (String × Outcome) :=
  names.filterMap
    (fun n => (planOutcome env base g0 destRoot n).map (fun o => (n, mapAlready o)))

/-- The per-entry outcome an uninstall pass produces over a symlink-free
base extended with the created links named in cl. -/
def uplanOutcome (base : FS) (destRoot : Path) (cl : List String) (n : String) : Outcome :=
  if n ∈ cl then Outcome.Removed
  else
    match base.entries (destRoot ++ [n]) with
    | none => Outcome.NotInstalled
    | some (Entry.symlink _) => Outcome.Skipped "points elsewhere"
    | some _ => Outcome.Skipped "not a symlink"

def uplanReport (g0u : String → Bool) (base : FS) (destRoot : Path) (cl : List String)
    (names : List String) : List (String × Outcome) :=
  names.filterMap
    (fun n => if g0u n then some (n, uplanOutcome base destRoot cl n) else none)

/-- Counterexample fixture: two conflicting destination links with an
input stream that shifts between runs. -/
def c5aFS : FS :=
  ⟨fun p =>
    if p = ["s"] then some Entry.dir
    else if p = ["s", "a"] then some Entry.dir
    else if p = ["s", "a", "SKILL.md"] then some Entry.file
    else if p = ["s", "b"] then some Entry.dir
    else if p = ["s", "b", "SKILL.md"] then some Entry.file
    else if p = ["d"] then some Entry.dir
    else if p = ["d", "a"] then some (Entry.symlink ["x1"])
    else if p = ["d", "b"] then some (Entry.symlink ["x1"])
    else none⟩

def c5aEnv : Env := ⟨fun p => if p = ["s"] then some ["a", "b"] else none, fun _ => true⟩

/-- Counterexample fixture: a source entry that is itself a symlink into
the source tree, with a destination link aliasing through the other
destination. -/
def c5bFS : FS :=
  ⟨fun p =>
    if p = ["s"] then some Entry.dir
    else if p = ["s", "a"] then some (Entry.symlink ["s", "b"])
    else if p = ["s", "a", "SKILL.md"] then some Entry.file
    else if p = ["s", "b"] then some Entry.dir
    else if p = ["s", "b", "SKILL.md"] then some Entry.file
    else if p = ["d"] then some Entry.dir
    else if p = ["d", "a"] then some (Entry.symlink ["d", "b"])
    else none⟩

def c5bEnv : Env := ⟨fun p => if p = ["s"] then some ["a", "b"] else none, fun _ => true⟩

/-- Clean commands fixture: one markdown file under the source root. -/
def c5wFS : FS :=
  ⟨fun p =>
    if p = c3Src then some Entry.dir
    else if p = c3Src ++ ["a.md"] then some Entry.file
    else none⟩

def c5wEnv : Env := ⟨fun p => if p = c3Src then some ["a.md"] else none, fun _ => true⟩

/-- Round-trip fixture, skills group: one valid skill, both roots are
directories. -/
def c8fs : FS :=
  ⟨fun p =>
    if p = c3Src then some Entry.dir
    else if p = c3Src ++ ["alpha"] then some Entry.dir
    else if p = c3Src ++ ["alpha", "SKILL.md"] then some Entry.file
    else if p = c3Dest then some Entry.dir
    else none⟩

/-- Round-trip fixture, commands group: one markdown file, both roots are
directories. -/
def c8cfs : FS :=
  ⟨fun p =>
    if p = c3Src then some Entry.dir
    else if p = c3Src ++ ["a.md"] then some Entry.file
    else if p = c3Dest then some Entry.dir
    else none⟩

-- FIXTURES-MARK
/-! Basic lemmas about the filesystem primitives. -/

theorem FS.eq_of_entries {fs1 fs2 : FS} (h : fs1.entries = fs2.entries) : fs1 = fs2 := by
  cases fs1; cases fs2; simpa using h

theorem isSymlink_false_iff {fs : FS} {p : Path} :
    isSymlink fs p = false ↔ ∀ t, fs.entries p ≠ some (Entry.symlink t) := by
  unfold isSymlink
  cases he : fs.entries p with
  | none => simp
  | some e => cases e <;> simp

theorem isSymlink_true_iff {fs : FS} {p : Path} :
    isSymlink fs p = true ↔ ∃ t, fs.entries p = some (Entry.symlink t) := by
  unfold isSymlink
  cases he : fs.entries p with
  | none => simp
  | some e => cases e <;> simp

theorem resolvePath_of_not_symlink {fs : FS} {p : Path}
    (h : ∀ t, fs.entries p ≠ some (Entry.symlink t)) {fuel : Nat} (hf : 1 ≤ fuel) :
    resolvePath fs fuel p = some p := by
  cases fuel with
  | zero => omega
  | succ n =>
    unfold resolvePath
    cases he : fs.entries p with
    | none => simp
    | some e => cases e <;> simp_all

theorem resolvePath_symlink {fs : FS} {p t : Path}
    (h : fs.entries p = some (Entry.symlink t)) (fuel : Nat) :
    resolvePath fs (fuel + 1) p = resolvePath fs fuel t := by
  show (match fs.entries p with
    | some (Entry.symlink t) => resolvePath fs fuel t
    | _ => some p) = resolvePath fs fuel t
  rw [h]

theorem pathExists_of_not_symlink {fs : FS} {p : Path}
    (h : ∀ t, fs.entries p ≠ some (Entry.symlink t)) {fuel : Nat} (hf : 1 ≤ fuel) :
    pathExists fs fuel p = (fs.entries p).isSome := by
  unfold pathExists
  rw [resolvePath_of_not_symlink h hf]

theorem isDir_of_not_symlink {fs : FS} {p : Path}
    (h : ∀ t, fs.entries p ≠ some (Entry.symlink t)) {fuel : Nat} (hf : 1 ≤ fuel) :
    isDir fs fuel p = decide (fs.entries p = some Entry.dir) := by
  unfold isDir
  rw [resolvePath_of_not_symlink h hf]

theorem is_our_symlink_isSymlink {fs : FS} {fuel : Nat} {d s : Path}
    (h : is_our_symlink fs fuel d s = true) : isSymlink fs d = true := by
  unfold is_our_symlink at h
  by_cases hs : isSymlink fs d = false
  · simp [hs] at h
  · simpa using hs

theorem is_our_symlink_of_not_symlink {fs : FS} {fuel : Nat} {d s : Path}
    (h : ∀ t, fs.entries d ≠ some (Entry.symlink t)) :
    is_our_symlink fs fuel d s = false := by
  unfold is_our_symlink
  simp [isSymlink_false_iff.mpr h]

/-! Characterizations of the four probe results by the branch conditions. -/

theorem probe_eq_linkedCorrect_iff {fs : FS} {fuel : Nat} {d s : Path} :
    probe fs fuel d s = LinkState.LinkedCorrect ↔ is_our_symlink fs fuel d s = true := by
  unfold probe
  split_ifs <;> simp_all

theorem probe_eq_linkedElsewhere_iff {fs : FS} {fuel : Nat} {d s : Path} :
    probe fs fuel d s = LinkState.LinkedElsewhere ↔
      is_our_symlink fs fuel d s = false ∧ isSymlink fs d = true := by
  unfold probe
  split_ifs <;> simp_all

theorem probe_eq_occupied_iff {fs : FS} {fuel : Nat} {d s : Path} :
    probe fs fuel d s = LinkState.Occupied ↔
      is_our_symlink fs fuel d s = false ∧ isSymlink fs d = false ∧
        pathExists fs fuel d = true := by
  unfold probe
  split_ifs <;> simp_all

theorem probe_eq_absent_iff {fs : FS} {fuel : Nat} {d s : Path} :
    probe fs fuel d s = LinkState.Absent ↔
      is_our_symlink fs fuel d s = false ∧ isSymlink fs d = false ∧
        pathExists fs fuel d = false := by
  unfold probe
  split_ifs <;> simp_all

/-- C1: for every destination and desired source path the probe yields
exactly one of the four states: nothing at the destination (no dangling
link) gives Absent; a symbolic link whose canonical resolution equals the
canonical resolution of the source gives LinkedCorrect; a symbolic link
resolving elsewhere, or whose resolution fails, gives LinkedElsewhere
without raising; any other existing entry (file or directory) gives
Occupied. The probe is a pure read: it returns only the classification. -/
theorem probe_classification (fs : FS) (fuel : Nat) (dest src : Path) (hf : 1 ≤ fuel) :
    (fs.entries dest = none → probe fs fuel dest src = LinkState.Absent) ∧
    (∀ t, fs.entries dest = some (Entry.symlink t) →
      (∀ q, resolvePath fs fuel dest = some q → resolvePath fs fuel src = some q →
        probe fs fuel dest src = LinkState.LinkedCorrect) ∧
      (∀ a b, resolvePath fs fuel dest = some a → resolvePath fs fuel src = some b →
        a ≠ b → probe fs fuel dest src = LinkState.LinkedElsewhere) ∧
      ((resolvePath fs fuel dest = none ∨ resolvePath fs fuel src = none) →
        probe fs fuel dest src = LinkState.LinkedElsewhere)) ∧
    ((fs.entries dest = some Entry.file ∨ fs.entries dest = some Entry.dir) →
      probe fs fuel dest src = LinkState.Occupied) := by
  refine ⟨?_, ?_, ?_⟩
  · intro h
    have hns : ∀ t, fs.entries dest ≠ some (Entry.symlink t) := by simp [h]
    rw [probe_eq_absent_iff]
    refine ⟨is_our_symlink_of_not_symlink hns, isSymlink_false_iff.mpr hns, ?_⟩
    rw [pathExists_of_not_symlink hns hf, h]
    rfl
  · intro t ht
    have hsym : isSymlink fs dest = true := isSymlink_true_iff.mpr ⟨t, ht⟩
    refine ⟨?_, ?_, ?_⟩
    · intro q h1 h2
      rw [probe_eq_linkedCorrect_iff]
      unfold is_our_symlink
      simp [hsym, h1, h2]
    · intro a b h1 h2 hne
      rw [probe_eq_linkedElsewhere_iff]
      refine ⟨?_, hsym⟩
      unfold is_our_symlink
      simp [hsym, h1, h2, hne]
    · intro h
      rw [probe_eq_linkedElsewhere_iff]
      refine ⟨?_, hsym⟩
      unfold is_our_symlink
      rcases h with h | h
      · simp [hsym, h]
      · cases hr : resolvePath fs fuel dest <;> simp [hsym, h, hr]
  · intro h
    have hns : ∀ u, fs.entries dest ≠ some (Entry.symlink u) := by
      rcases h with h | h <;> simp [h]
    rw [probe_eq_occupied_iff]
    refine ⟨is_our_symlink_of_not_symlink hns, isSymlink_false_iff.mpr hns, ?_⟩
    rw [pathExists_of_not_symlink hns hf]
    rcases h with h | h <;> simp [h]

/-- Witness for C1 at a concrete filesystem covering all four classes plus
a failing resolution (symlink loop). -/
theorem probe_classification_witness :
    (1 ≤ 2) ∧ probe c1fs 2 ["dAbsent"] ["src"] = LinkState.Absent ∧
      probe c1fs 2 ["dLink"] ["src"] = LinkState.LinkedCorrect ∧
      probe c1fs 2 ["dElse"] ["src"] = LinkState.LinkedElsewhere ∧
      probe c1fs 2 ["dLoop"] ["src"] = LinkState.LinkedElsewhere ∧
      probe c1fs 2 ["dFile"] ["src"] = LinkState.Occupied := by
  refine ⟨by decide, ?_, ?_, ?_, ?_, ?_⟩
  · exact (probe_classification c1fs 2 ["dAbsent"] ["src"] (by decide)).1 (by decide)
  · exact ((probe_classification c1fs 2 ["dLink"] ["src"] (by decide)).2.1
      ["src"] (by decide)).1 ["src"] (by decide) (by decide)
  · exact ((probe_classification c1fs 2 ["dElse"] ["src"] (by decide)).2.1
      ["other"] (by decide)).2.1 ["other"] ["src"] (by decide) (by decide) (by decide)
  · exact ((probe_classification c1fs 2 ["dLoop"] ["src"] (by decide)).2.1
      ["dLoop"] (by decide)).2.2 (Or.inl (by decide))
  · exact (probe_classification c1fs 2 ["dFile"] ["src"] (by decide)).2.2
      (Or.inl (by decide))

/-! Frame lemmas: which entries each operation can change. -/

theorem FS.set_entries (fs : FS) (p : Path) (e : Option Entry) (q : Path) :
    (fs.set p e).entries q = if q = p then e else fs.entries q := rfl

theorem unlink_entries_of_ne {fs : FS} {d p : Path} (hne : p ≠ d) :
    (unlink fs d).entries p = fs.entries p := by
  simp [unlink, FS.set_entries, hne]

theorem create_symlink_entries_of_ne {env : Env} {fs : FS} {source dest p : Path}
    (hne : p ≠ dest) :
    (create_symlink env fs source dest).1.entries p = fs.entries p := by
  unfold create_symlink
  split_ifs <;> simp [FS.set_entries, hne]

theorem create_symlink_preserves_some {env : Env} {fs : FS} {source dest p : Path}
    {e : Entry} (he : fs.entries p = some e) :
    (create_symlink env fs source dest).1.entries p = some e := by
  unfold create_symlink
  split_ifs with h1 h2
  · exact he
  · by_cases hpd : p = dest
    · subst hpd; simp [he] at h1
    · simp [FS.set_entries, hpd, he]
  · exact he

theorem mkdirs_preserves_some {fs : FS} {fuel : Nat} {d p : Path} {e : Entry}
    (he : fs.entries p = some e) {fs1 : FS} (h : mkdirs fs fuel d = Except.ok fs1) :
    fs1.entries p = some e := by
  unfold mkdirs at h
  split_ifs at h with h1 h2
  · by_cases hpd : p = d
    · subst hpd; rw [he] at h1; cases h1
    · cases h; simp [FS.set_entries, hpd, he]
  · cases h; exact he

/-- The shared per-entry install body never deletes, overwrites or
modifies an existing non-symlink entry, at any path, in either mode. -/
theorem installLinkStep_preserves_nonsymlink {env : Env} {fuel : Nat}
    {source target : Path} {interactive : Bool} {fs : FS} {inputs : List String}
    {p : Path} {e : Entry} (he : fs.entries p = some e)
    (hns : ∀ t, e ≠ Entry.symlink t) :
    (installLinkStep env fuel source target interactive fs inputs).fs.entries p = some e := by
  unfold installLinkStep
  by_cases h1 : is_our_symlink fs fuel target source
  · simp [h1, he]
  · by_cases h2 : isSymlink fs target
    · have hpt : p ≠ target := by
        intro hpd
        subst hpd
        rcases isSymlink_true_iff.mp h2 with ⟨t, ht⟩
        rw [he] at ht
        exact hns t (by injection ht)
      cases interactive with
      | false => simp [h1, h2, he]
      | true =>
        cases inputs with
        | nil => simp [h1, h2, he]
        | cons r rest =>
          by_cases hy : pyStripLower r = "y"
          · have hu : (unlink fs target).entries p = some e := by
              rw [unlink_entries_of_ne hpt, he]
            simp only [h1, h2, hy]
            simp only [Bool.false_eq_true, if_false, isSymlink_true_iff, if_true]
            split <;> simp_all [create_symlink_preserves_some hu]
          · simp [h1, h2, hy, he]
    · by_cases h3 : pathExists fs fuel target
      · simp [h1, h2, h3, he]
      · simp only [h1, h2, h3]
        simp only [Bool.false_eq_true, if_false]
        split <;> simp_all [create_symlink_preserves_some he]

/-- The install iteration preserves every existing non-symlink entry. -/
theorem installGenLoop_preserves_nonsymlink {env : Env} {fuel : Nat}
    {S D : Path} {interactive : Bool} {gate : FS → String → GateR} {e : Entry}
    (hns : ∀ t, e ≠ Entry.symlink t) :
    ∀ (names : List String) (fs : FS) (inputs : List String) (p : Path),
      fs.entries p = some e →
      (installGenLoop env fuel S D interactive gate fs inputs names).fs.entries p = some e := by
  intro names
  induction names with
  | nil => intro fs inputs p hp; exact hp
  | cons n rest ih =>
    intro fs inputs p hp
    unfold installGenLoop
    cases hg : gate fs n with
    | skip => exact ih _ _ _ hp
    | report o => simpa using ih _ _ _ hp
    | go =>
      have hstep := @installLinkStep_preserves_nonsymlink env fuel
        (S ++ [n]) (D ++ [n]) interactive fs inputs p e hp hns
      cases herr : (installLinkStep env fuel (S ++ [n]) (D ++ [n]) interactive fs inputs).err
      · simpa [herr] using ih _ _ _ hstep
      · simpa [herr] using hstep

/-- C2: an entry whose destination exists as a regular file or directory
(probe Occupied) is never deleted, overwritten or modified by install, in
interactive or non-interactive mode: the per-entry body returns the
filesystem unchanged with outcome Skipped, and a full install run over
either asset group preserves every file or directory entry anywhere. -/
theorem install_never_touches_occupied (env : Env) (fs : FS) (fuel : Nat)
    (srcRoot destRoot source target : Path) (interactive : Bool) (inputs : List String) :
    (probe fs fuel target source = LinkState.Occupied →
      installLinkStep env fuel source target interactive fs inputs =
        ⟨fs, inputs, some (Outcome.Skipped "exists as file/directory"), none⟩) ∧
    (∀ p, (fs.entries p = some Entry.file ∨ fs.entries p = some Entry.dir) →
      (install_skills env fs fuel srcRoot destRoot interactive inputs).fs.entries p =
          fs.entries p ∧
        (install_commands env fs fuel srcRoot destRoot interactive inputs).fs.entries p =
          fs.entries p) := by
  constructor
  · intro h
    obtain ⟨h1, h2, h3⟩ := probe_eq_occupied_iff.mp h
    unfold installLinkStep
    simp [h1, h2, h3]
  · intro p hp
    have hgen : ∃ e, fs.entries p = some e ∧ ∀ t, e ≠ Entry.symlink t := by
      rcases hp with h | h
      · exact ⟨Entry.file, h, by intro t h'; cases h'⟩
      · exact ⟨Entry.dir, h, by intro t h'; cases h'⟩
    obtain ⟨e, he, hns⟩ := hgen
    rw [he]
    constructor
    · unfold install_skills
      split_ifs with hx
      · exact he
      · cases hmk : mkdirs fs fuel destRoot with
        | error er => simp [hmk, he]
        | ok fs1 =>
          simp only [hmk]
          cases hch : env.children srcRoot with
          | none => simpa [hch] using mkdirs_preserves_some he hmk
          | some names =>
            simp only [hch]
            exact installGenLoop_preserves_nonsymlink hns _ _ _ _
              (mkdirs_preserves_some he hmk)
    · unfold install_commands
      split_ifs with hx
      · exact he
      · cases hmk : mkdirs fs fuel destRoot with
        | error er => simp [hmk, he]
        | ok fs1 =>
          simp only [hmk]
          exact installGenLoop_preserves_nonsymlink hns _ _ _ _
            (mkdirs_preserves_some he hmk)

/-- Witness for C2: the destination of entry occ is a pre-seeded regular
file; a fully interactive install leaves it untouched and reports the
entry skipped. -/
theorem install_never_touches_occupied_witness :
    probe wFS 2 (wDest ++ ["occ"]) (wSrc ++ ["occ"]) = LinkState.Occupied ∧
    installLinkStep wEnv 2 (wSrc ++ ["occ"]) (wDest ++ ["occ"]) true wFS ["y"] =
      ⟨wFS, ["y"], some (Outcome.Skipped "exists as file/directory"), none⟩ ∧
    (wFS.entries (wDest ++ ["occ"]) = some Entry.file ∨
      wFS.entries (wDest ++ ["occ"]) = some Entry.dir) ∧
    (install_skills wEnv wFS 2 wSrc wDest true ["y"]).fs.entries (wDest ++ ["occ"]) =
      wFS.entries (wDest ++ ["occ"]) ∧
    (install_commands wEnv wFS 2 wSrc wDest true ["y"]).fs.entries (wDest ++ ["occ"]) =
      wFS.entries (wDest ++ ["occ"]) := by
  refine ⟨by decide, ?_, Or.inl (by decide), ?_, ?_⟩
  · exact (install_never_touches_occupied wEnv wFS 2 wSrc wDest (wSrc ++ ["occ"])
      (wDest ++ ["occ"]) true ["y"]).1 (by decide)
  · exact ((install_never_touches_occupied wEnv wFS 2 wSrc wDest (wSrc ++ ["occ"])
      (wDest ++ ["occ"]) true ["y"]).2 (wDest ++ ["occ"]) (Or.inl (by decide))).1
  · exact ((install_never_touches_occupied wEnv wFS 2 wSrc wDest (wSrc ++ ["occ"])
      (wDest ++ ["occ"]) true ["y"]).2 (wDest ++ ["occ"]) (Or.inl (by decide))).2

/-- In non-interactive mode the per-entry install body never removes or
replaces an existing entry of any kind (its only mutation is creating a
link at an absent destination). -/
theorem installLinkStep_noninteractive_preserves {env : Env} {fuel : Nat}
    {source target : Path} {fs : FS} {inputs : List String} {p : Path} {e : Entry}
    (he : fs.entries p = some e) :
    (installLinkStep env fuel source target false fs inputs).fs.entries p = some e := by
  unfold installLinkStep
  by_cases h1 : is_our_symlink fs fuel target source
  · simp [h1, he]
  · by_cases h2 : isSymlink fs target
    · simp [h1, h2, he]
    · by_cases h3 : pathExists fs fuel target
      · simp [h1, h2, h3, he]
      · simp only [h1, h2, h3]
        simp only [Bool.false_eq_true, if_false]
        split <;> simp_all [create_symlink_preserves_some he]

theorem installGenLoop_noninteractive_preserves {env : Env} {fuel : Nat}
    {S D : Path} {gate : FS → String → GateR} {e : Entry} :
    ∀ (names : List String) (fs : FS) (inputs : List String) (p : Path),
      fs.entries p = some e →
      (installGenLoop env fuel S D false gate fs inputs names).fs.entries p = some e := by
  intro names
  induction names with
  | nil => intro fs inputs p hp; exact hp
  | cons n rest ih =>
    intro fs inputs p hp
    unfold installGenLoop
    cases hg : gate fs n with
    | skip => exact ih _ _ _ hp
    | report o => simpa using ih _ _ _ hp
    | go =>
      have hstep := @installLinkStep_noninteractive_preserves env fuel
        (S ++ [n]) (D ++ [n]) fs inputs p e hp
      cases herr : (installLinkStep env fuel (S ++ [n]) (D ++ [n]) false fs inputs).err
      · simpa [herr] using ih _ _ _ hstep
      · simpa [herr] using hstep

/-- C6: an entry probed LinkedElsewhere is always skipped by a
non-interactive install, and a non-interactive install run over either
asset group leaves every pre-existing entry (in particular the
conflicting destination link and its target) exactly as it was. -/
theorem noninteractive_install_skips_elsewhere (env : Env) (fs : FS) (fuel : Nat)
    (srcRoot destRoot source target : Path) (inputs : List String) :
    (probe fs fuel target source = LinkState.LinkedElsewhere →
      installLinkStep env fuel source target false fs inputs =
        ⟨fs, inputs, some (Outcome.Skipped "points elsewhere"), none⟩) ∧
    (∀ p e, fs.entries p = some e →
      (install_skills env fs fuel srcRoot destRoot false inputs).fs.entries p = some e ∧
      (install_commands env fs fuel srcRoot destRoot false inputs).fs.entries p = some e) := by
  constructor
  · intro h
    obtain ⟨h1, h2⟩ := probe_eq_linkedElsewhere_iff.mp h
    unfold installLinkStep
    simp [h1, h2]
  · intro p e he
    constructor
    · unfold install_skills
      split_ifs with hx
      · exact he
      · cases hmk : mkdirs fs fuel destRoot with
        | error er => simp [hmk, he]
        | ok fs1 =>
          simp only [hmk]
          cases hch : env.children srcRoot with
          | none => simpa [hch] using mkdirs_preserves_some he hmk
          | some names =>
            simp only [hch]
            exact installGenLoop_noninteractive_preserves _ _ _ _
              (mkdirs_preserves_some he hmk)
    · unfold install_commands
      split_ifs with hx
      · exact he
      · cases hmk : mkdirs fs fuel destRoot with
        | error er => simp [hmk, he]
        | ok fs1 =>
          simp only [hmk]
          exact installGenLoop_noninteractive_preserves _ _ _ _
            (mkdirs_preserves_some he hmk)

/-- Witness for C6: entry els has a destination link to a different
target; non-interactive install skips it and both the link and its target
survive a full run. -/
theorem noninteractive_install_skips_elsewhere_witness :
    probe wFS 2 (wDest ++ ["els"]) (wSrc ++ ["els"]) = LinkState.LinkedElsewhere ∧
    installLinkStep wEnv 2 (wSrc ++ ["els"]) (wDest ++ ["els"]) false wFS [] =
      ⟨wFS, [], some (Outcome.Skipped "points elsewhere"), none⟩ ∧
    wFS.entries (wDest ++ ["els"]) = some (Entry.symlink ["other"]) ∧
    (install_skills wEnv wFS 2 wSrc wDest false []).fs.entries (wDest ++ ["els"]) =
      some (Entry.symlink ["other"]) ∧
    (install_skills wEnv wFS 2 wSrc wDest false []).fs.entries ["other"] =
      some Entry.dir := by
  refine ⟨by decide, ?_, by decide, ?_, ?_⟩
  · exact (noninteractive_install_skips_elsewhere wEnv wFS 2 wSrc wDest (wSrc ++ ["els"])
      (wDest ++ ["els"]) []).1 (by decide)
  · exact ((noninteractive_install_skips_elsewhere wEnv wFS 2 wSrc wDest (wSrc ++ ["els"])
      (wDest ++ ["els"]) []).2 (wDest ++ ["els"]) (Entry.symlink ["other"]) (by decide)).1
  · exact ((noninteractive_install_skips_elsewhere wEnv wFS 2 wSrc wDest (wSrc ++ ["els"])
      (wDest ++ ["els"]) []).2 ["other"] Entry.dir (by decide)).1

/-- C7: the shared uninstall body removes the destination exactly when the
probe yields LinkedCorrect (outcome Removed); LinkedElsewhere and Occupied
destinations are left untouched with outcome Skipped, which increments
only the skipped tally; an Absent destination yields NotInstalled, which
increments neither the removed nor the skipped tally. -/
theorem uninstall_outcomes (fs : FS) (fuel : Nat) (source target : Path) :
    (probe fs fuel target source = LinkState.LinkedCorrect →
      uninstallLinkStep fs fuel source target = (unlink fs target, Outcome.Removed)) ∧
    (probe fs fuel target source = LinkState.LinkedElsewhere →
      uninstallLinkStep fs fuel source target = (fs, Outcome.Skipped "points elsewhere")) ∧
    (probe fs fuel target source = LinkState.Occupied →
      uninstallLinkStep fs fuel source target = (fs, Outcome.Skipped "not a symlink")) ∧
    (probe fs fuel target source = LinkState.Absent →
      uninstallLinkStep fs fuel source target = (fs, Outcome.NotInstalled)) ∧
    (∀ (rep : List (String × Outcome)) (n : String) (r : String),
      countsRemoved ((n, Outcome.Removed) :: rep) = countsRemoved rep + 1 ∧
      countsSkipped ((n, Outcome.Skipped r) :: rep) = countsSkipped rep + 1 ∧
      countsRemoved ((n, Outcome.Skipped r) :: rep) = countsRemoved rep ∧
      countsSkipped ((n, Outcome.Removed) :: rep) = countsSkipped rep ∧
      countsRemoved ((n, Outcome.NotInstalled) :: rep) = countsRemoved rep ∧
      countsSkipped ((n, Outcome.NotInstalled) :: rep) = countsSkipped rep) := by
  refine ⟨?_, ?_, ?_, ?_, ?_⟩
  · intro h
    have h1 := probe_eq_linkedCorrect_iff.mp h
    unfold uninstallLinkStep
    simp [h1]
  · intro h
    obtain ⟨h1, h2⟩ := probe_eq_linkedElsewhere_iff.mp h
    unfold uninstallLinkStep
    simp [h1, h2]
  · intro h
    obtain ⟨h1, h2, h3⟩ := probe_eq_occupied_iff.mp h
    unfold uninstallLinkStep
    simp [h1, h2, h3]
  · intro h
    obtain ⟨h1, h2, h3⟩ := probe_eq_absent_iff.mp h
    unfold uninstallLinkStep
    simp [h1, h2, h3]
  · intro rep n r
    refine ⟨rfl, rfl, rfl, rfl, rfl, rfl⟩

/-- Witness for C7 at a concrete filesystem exhibiting all four probe
classes. -/
theorem uninstall_outcomes_witness :
    probe c1fs 2 ["dLink"] ["src"] = LinkState.LinkedCorrect ∧
    uninstallLinkStep c1fs 2 ["src"] ["dLink"] = (unlink c1fs ["dLink"], Outcome.Removed) ∧
    probe c1fs 2 ["dElse"] ["src"] = LinkState.LinkedElsewhere ∧
    uninstallLinkStep c1fs 2 ["src"] ["dElse"] = (c1fs, Outcome.Skipped "points elsewhere") ∧
    probe c1fs 2 ["dFile"] ["src"] = LinkState.Occupied ∧
    uninstallLinkStep c1fs 2 ["src"] ["dFile"] = (c1fs, Outcome.Skipped "not a symlink") ∧
    probe c1fs 2 ["dAbsent"] ["src"] = LinkState.Absent ∧
    uninstallLinkStep c1fs 2 ["src"] ["dAbsent"] = (c1fs, Outcome.NotInstalled) ∧
    countsRemoved [("a", Outcome.NotInstalled)] = 0 ∧
    countsSkipped [("a", Outcome.NotInstalled)] = 0 := by
  have h := uninstall_outcomes c1fs 2 ["src"]
  refine ⟨by decide, (h ["dLink"]).1 (by decide), by decide,
    (h ["dElse"]).2.1 (by decide), by decide, (h ["dFile"]).2.2.1 (by decide),
    by decide, (h ["dAbsent"]).2.2.2.1 (by decide), ?_, ?_⟩
  · exact ((h ["dLink"]).2.2.2.2 [] "a" "r").2.2.2.2.1
  · exact ((h ["dLink"]).2.2.2.2 [] "a" "r").2.2.2.2.2

theorem installGenLoop_nil (env : Env) (fuel : Nat) (S D : Path) (interactive : Bool)
    (gate : FS → String → GateR) (fs : FS) (inputs : List String) :
    installGenLoop env fuel S D interactive gate fs inputs [] = ⟨fs, inputs, [], none⟩ := rfl

theorem installGenLoop_cons (env : Env) (fuel : Nat) (S D : Path) (interactive : Bool)
    (gate : FS → String → GateR) (fs : FS) (inputs : List String) (n : String)
    (rest : List String) :
    installGenLoop env fuel S D interactive gate fs inputs (n :: rest) =
      match gate fs n with
      | GateR.skip => installGenLoop env fuel S D interactive gate fs inputs rest
      | GateR.report o =>
        let r := installGenLoop env fuel S D interactive gate fs inputs rest
        ⟨r.fs, r.inputs, (n, o) :: r.report, r.err⟩
      | GateR.go =>
        let s := installLinkStep env fuel (S ++ [n]) (D ++ [n]) interactive fs inputs
        match s.err with
        | some e => ⟨s.fs, s.inputs, [], some e⟩
        | none =>
          let r := installGenLoop env fuel S D interactive gate s.fs s.inputs rest
          ⟨r.fs, r.inputs, (s.out.map (fun o => (n, o))).toList ++ r.report, r.err⟩ := rfl

/-- C9 (amended): during interactive install, any non-affirmative input
line (empty or unrecognized text after strip().lower()) is treated as a
negative answer: the entry is reported Skipped, the existing link is
preserved (the remaining iteration starts from the unchanged filesystem),
and processing continues with the next entries. End-of-file, however, is
not handled: input() raises EOFError, which aborts the iteration with no
further entries processed. This holds for both asset groups (the gate is
arbitrary). -/
theorem prompt_nonaffirmative_negative (env : Env) (fs : FS) (fuel : Nat)
    (S D : Path) (gate : FS → String → GateR) (n : String) (names : List String)
    (line : String) (ls : List String) :
    (pyStripLower line ≠ "y" →
      probe fs fuel (D ++ [n]) (S ++ [n]) = LinkState.LinkedElsewhere →
      installLinkStep env fuel (S ++ [n]) (D ++ [n]) true fs (line :: ls) =
        ⟨fs, ls, some (Outcome.Skipped "declined replace"), none⟩) ∧
    (gate fs n = GateR.go →
      probe fs fuel (D ++ [n]) (S ++ [n]) = LinkState.LinkedElsewhere →
      pyStripLower line ≠ "y" →
      installGenLoop env fuel S D true gate fs (line :: ls) (n :: names) =
        (let r := installGenLoop env fuel S D true gate fs ls names
         ⟨r.fs, r.inputs, (n, Outcome.Skipped "declined replace") :: r.report, r.err⟩)) ∧
    (gate fs n = GateR.go →
      probe fs fuel (D ++ [n]) (S ++ [n]) = LinkState.LinkedElsewhere →
      installGenLoop env fuel S D true gate fs [] (n :: names) =
        ⟨fs, [], [], some PyError.eofError⟩) := by
  have hstep : pyStripLower line ≠ "y" →
      probe fs fuel (D ++ [n]) (S ++ [n]) = LinkState.LinkedElsewhere →
      installLinkStep env fuel (S ++ [n]) (D ++ [n]) true fs (line :: ls) =
        ⟨fs, ls, some (Outcome.Skipped "declined replace"), none⟩ := by
    intro hy h
    obtain ⟨h1, h2⟩ := probe_eq_linkedElsewhere_iff.mp h
    unfold installLinkStep
    simp [h1, h2, hy]
  refine ⟨hstep, ?_, ?_⟩
  · intro hg h hy
    rw [installGenLoop_cons, hg, hstep hy h]
    rfl
  · intro hg h
    obtain ⟨h1, h2⟩ := probe_eq_linkedElsewhere_iff.mp h
    have hs : installLinkStep env fuel (S ++ [n]) (D ++ [n]) true fs [] =
        ⟨fs, [], none, some PyError.eofError⟩ := by
      unfold installLinkStep
      simp [h1, h2]
    rw [installGenLoop_cons, hg, hs]

/-- Witness for C9 (amended) at the els entry of the shared scenario,
with the unrecognized input line "n". -/
theorem prompt_nonaffirmative_negative_witness :
    pyStripLower "n" ≠ "y" ∧
    (fun f m => skillsGate f 2 wSrc m) wFS "els" = GateR.go ∧
    probe wFS 2 (wDest ++ ["els"]) (wSrc ++ ["els"]) = LinkState.LinkedElsewhere ∧
    installGenLoop wEnv 2 wSrc wDest true (fun f m => skillsGate f 2 wSrc m)
        wFS ["n"] ["els", "occ"] =
      (let r := installGenLoop wEnv 2 wSrc wDest true (fun f m => skillsGate f 2 wSrc m)
        wFS [] ["occ"]
       ⟨r.fs, r.inputs, ("els", Outcome.Skipped "declined replace") :: r.report, r.err⟩) ∧
    installGenLoop wEnv 2 wSrc wDest true (fun f m => skillsGate f 2 wSrc m)
        wFS [] ["els", "occ"] = ⟨wFS, [], [], some PyError.eofError⟩ := by
  refine ⟨by decide, by decide, by decide, ?_, ?_⟩
  · exact (prompt_nonaffirmative_negative wEnv wFS 2 wSrc wDest
      (fun f m => skillsGate f 2 wSrc m) "els" ["occ"] "n" []).2.1
      (by decide) (by decide) (by decide)
  · exact (prompt_nonaffirmative_negative wEnv wFS 2 wSrc wDest
      (fun f m => skillsGate f 2 wSrc m) "els" ["occ"] "n" []).2.2
      (by decide) (by decide)

/-- Counterexample for C9 as stated: with standard input at end-of-file,
the interactive install of the shared scenario aborts with an uncaught
EOFError at the first conflict prompt (entry els); the entry is not
skipped-and-continued: the entries after els (file.txt, occ) are never
processed and produce no report. -/
theorem prompt_eof_cx :
    (install_skills wEnv wFS 2 wSrc wDest true []).err = some PyError.eofError ∧
    (install_skills wEnv wFS 2 wSrc wDest true []).report =
      [("alpha", Outcome.Installed)] := by
  constructor
  · decide
  · decide

theorem isDir_false_of_file {fs : FS} {p : Path} (fuel : Nat)
    (h : fs.entries p = some Entry.file) : isDir fs fuel p = false := by
  cases fuel with
  | zero => simp [isDir, resolvePath]
  | succ k =>
    unfold isDir
    rw [resolvePath_of_not_symlink (by simp [h]) (by omega)]
    simp [h]

/-- The per-entry install body mutates nothing outside its own
destination path. -/
theorem installLinkStep_entries_of_ne {env : Env} {fuel : Nat}
    {source target : Path} {interactive : Bool} {fs : FS} {inputs : List String}
    {p : Path} (hne : p ≠ target) :
    (installLinkStep env fuel source target interactive fs inputs).fs.entries p =
      fs.entries p := by
  unfold installLinkStep
  by_cases h1 : is_our_symlink fs fuel target source
  · simp [h1]
  · by_cases h2 : isSymlink fs target
    · cases interactive with
      | false => simp [h1, h2]
      | true =>
        cases inputs with
        | nil => simp [h1, h2]
        | cons r rest =>
          by_cases hy : pyStripLower r = "y"
          · simp only [h1, h2, hy]
            simp only [Bool.false_eq_true, if_false, isSymlink_true_iff, if_true]
            split <;>
              simp_all [create_symlink_entries_of_ne hne, unlink_entries_of_ne hne]
          · simp [h1, h2, hy]
    · by_cases h3 : pathExists fs fuel target
      · simp [h1, h2, h3]
      · simp only [h1, h2, h3]
        simp only [Bool.false_eq_true, if_false]
        split <;> simp_all [create_symlink_entries_of_ne hne]

theorem uninstallGenLoop_nil (fuel : Nat) (S D : Path) (gate : FS → String → Bool)
    (fs : FS) : uninstallGenLoop fuel S D gate fs [] = ⟨fs, [], [], none⟩ := rfl

theorem uninstallGenLoop_cons (fuel : Nat) (S D : Path) (gate : FS → String → Bool)
    (fs : FS) (n : String) (rest : List String) :
    uninstallGenLoop fuel S D gate fs (n :: rest) =
      if gate fs n then
        let s := uninstallLinkStep fs fuel (S ++ [n]) (D ++ [n])
        let r := uninstallGenLoop fuel S D gate s.1 rest
        ⟨r.fs, [], (n, s.2) :: r.report, r.err⟩
      else uninstallGenLoop fuel S D gate fs rest := rfl

/-- The per-entry uninstall body mutates nothing outside its own
destination path. -/
theorem uninstallLinkStep_entries_of_ne {fs : FS} {fuel : Nat} {source target p : Path}
    (hne : p ≠ target) :
    (uninstallLinkStep fs fuel source target).1.entries p = fs.entries p := by
  unfold uninstallLinkStep
  split_ifs <;> simp [unlink_entries_of_ne hne]

/-- C10: an entry directly under the skills source root that is not a
directory (here: a regular file) is invisible to install, uninstall and
status: the install and uninstall iterations produce the same result
(same filesystem, report and tallies) as if the name were not listed at
all, and the status report contains no line for it. -/
theorem nondir_entries_silently_ignored (env : Env) (fs : FS) (fuel : Nat)
    (S D CS CD : Path) (interactive : Bool) (n : String)
    (hfile : fs.entries (S ++ [n]) = some Entry.file)
    (hsep : ∀ m : String, S ++ [n] ≠ D ++ [m]) :
    (∀ (names inputs : List String),
      installGenLoop env fuel S D interactive (fun f m => skillsGate f fuel S m) fs inputs
          names =
        installGenLoop env fuel S D interactive (fun f m => skillsGate f fuel S m) fs inputs
          (names.filter (fun m => decide (m ≠ n)))) ∧
    (∀ names : List String,
      uninstallGenLoop fuel S D (fun f m => isDir f fuel (S ++ [m])) fs names =
        uninstallGenLoop fuel S D (fun f m => isDir f fuel (S ++ [m])) fs
          (names.filter (fun m => decide (m ≠ n)))) ∧
    (∀ (sr cr : List (String × Bool)) (b : Bool),
      check_status env fs fuel S D CS CD = Except.ok (sr, cr) → (n, b) ∉ sr) := by
  refine ⟨?_, ?_, ?_⟩
  · have key : ∀ (gate : FS → String → GateR),
        (∀ fs' : FS, fs'.entries (S ++ [n]) = some Entry.file → gate fs' n = GateR.skip) →
        ∀ (names : List String) (fs' : FS) (inputs : List String),
          fs'.entries (S ++ [n]) = some Entry.file →
          installGenLoop env fuel S D interactive gate fs' inputs names =
            installGenLoop env fuel S D interactive gate fs' inputs
              (names.filter (fun m => decide (m ≠ n))) := by
      intro gate hskip names
      induction names with
      | nil => intro fs' inputs h; rfl
      | cons m rest ih =>
        intro fs' inputs h
        by_cases hmn : m = n
        · subst hmn
          have hfil : (m :: rest).filter (fun x => decide (x ≠ m)) =
              rest.filter (fun x => decide (x ≠ m)) := by simp
          rw [hfil, installGenLoop_cons, hskip fs' h]
          exact ih fs' inputs h
        · have hfil : (m :: rest).filter (fun x => decide (x ≠ n)) =
              m :: rest.filter (fun x => decide (x ≠ n)) := by simp [hmn]
          rw [hfil, installGenLoop_cons, installGenLoop_cons]
          cases hg : gate fs' m with
          | skip => exact ih fs' inputs h
          | report o => rw [ih fs' inputs h]
          | go =>
            have hstep : (installLinkStep env fuel (S ++ [m]) (D ++ [m]) interactive fs'
                inputs).fs.entries (S ++ [n]) = some Entry.file := by
              rw [installLinkStep_entries_of_ne (hsep m)]
              exact h
            cases herr :
                (installLinkStep env fuel (S ++ [m]) (D ++ [m]) interactive fs' inputs).err with
            | some e => simp [herr]
            | none => simp only [herr]; rw [ih _ _ hstep]
    refine fun names inputs => key _ ?_ names fs inputs hfile
    intro fs' h
    show skillsGate fs' fuel S n = GateR.skip
    unfold skillsGate
    rw [isDir_false_of_file fuel h]
    simp
  · have key : ∀ (gate : FS → String → Bool),
        (∀ fs' : FS, fs'.entries (S ++ [n]) = some Entry.file → gate fs' n = false) →
        ∀ (names : List String) (fs' : FS),
          fs'.entries (S ++ [n]) = some Entry.file →
          uninstallGenLoop fuel S D gate fs' names =
            uninstallGenLoop fuel S D gate fs'
              (names.filter (fun m => decide (m ≠ n))) := by
      intro gate hskip names
      induction names with
      | nil => intro fs' h; rfl
      | cons m rest ih =>
        intro fs' h
        by_cases hmn : m = n
        · subst hmn
          have hfil : (m :: rest).filter (fun x => decide (x ≠ m)) =
              rest.filter (fun x => decide (x ≠ m)) := by simp
          rw [hfil, uninstallGenLoop_cons, hskip fs' h]
          simpa using ih fs' h
        · have hfil : (m :: rest).filter (fun x => decide (x ≠ n)) =
              m :: rest.filter (fun x => decide (x ≠ n)) := by simp [hmn]
          rw [hfil, uninstallGenLoop_cons, uninstallGenLoop_cons]
          cases hg : gate fs' m with
          | false => simp only [hg, Bool.false_eq_true, if_false]; exact ih fs' h
          | true =>
            have hstep : (uninstallLinkStep fs' fuel (S ++ [m]) (D ++ [m])).1.entries
                (S ++ [n]) = some Entry.file := by
              rw [uninstallLinkStep_entries_of_ne (hsep m)]
              exact h
            simp only [hg, if_true]
            rw [ih _ hstep]
    refine fun names => key _ ?_ names fs hfile
    intro fs' h
    show isDir fs' fuel (S ++ [n]) = false
    exact isDir_false_of_file fuel h
  · intro sr cr b hok hmem
    unfold check_status at hok
    cases hch : env.children S with
    | none => rw [hch] at hok; cases hok
    | some ns =>
      rw [hch] at hok
      simp only [Except.ok.injEq, Prod.mk.injEq] at hok
      obtain ⟨hsr, hcr⟩ := hok
      rw [← hsr] at hmem
      obtain ⟨m, hm, hf⟩ := List.mem_filterMap.mp hmem
      by_cases hmn : m = n
      · subst hmn
        rw [isDir_false_of_file fuel hfile] at hf
        simp at hf
      · by_cases hg : isDir fs fuel (S ++ [m]) && is_valid_skill fs fuel (S ++ [m])
        · rw [if_pos hg] at hf
          simp only [Option.some.injEq, Prod.mk.injEq] at hf
          exact hmn hf.1
        · rw [if_neg hg] at hf
          cases hf

/-- Witness for C10: the stray regular file file.txt under the skills
source root is absent from every report and its presence in the listing
changes nothing. -/
theorem nondir_entries_silently_ignored_witness :
    wFS.entries (wSrc ++ ["file.txt"]) = some Entry.file ∧
    (∀ m : String, wSrc ++ ["file.txt"] ≠ wDest ++ [m]) ∧
    installGenLoop wEnv 2 wSrc wDest false (fun f m => skillsGate f 2 wSrc m) wFS []
        ["file.txt", "alpha"] =
      installGenLoop wEnv 2 wSrc wDest false (fun f m => skillsGate f 2 wSrc m) wFS []
        (["file.txt", "alpha"].filter (fun m => decide (m ≠ "file.txt"))) ∧
    uninstallGenLoop 2 wSrc wDest (fun f m => isDir f 2 (wSrc ++ [m])) wFS ["file.txt"] =
      uninstallGenLoop 2 wSrc wDest (fun f m => isDir f 2 (wSrc ++ [m])) wFS
        (["file.txt"].filter (fun m => decide (m ≠ "file.txt"))) ∧
    ("file.txt", false) ∉
      ([("alpha", false), ("els", false), ("occ", false)] : List (String × Bool)) := by
  have hfile : wFS.entries (wSrc ++ ["file.txt"]) = some Entry.file := by decide
  have hsep : ∀ m : String, wSrc ++ ["file.txt"] ≠ wDest ++ [m] := by
    intro m h
    simp [wSrc, wDest] at h
  have h := nondir_entries_silently_ignored wEnv wFS 2 wSrc wDest
    ["repo", "commands"] ["home", "commands"] false "file.txt" hfile hsep
  exact ⟨hfile, hsep, h.1 ["file.txt", "alpha"] [], h.2.1 ["file.txt"],
    h.2.2 [("alpha", false), ("els", false), ("occ", false)] [] false (by rfl)⟩

/-- C3 (amended): install treats a missing source root as non-fatal with
an empty report (hence zero tallies), no error and no mutation; uninstall
treats a missing destination root the same way. But the other
combinations are not absence-reports: install creates a missing
destination root and proceeds; uninstall of the skills group raises an
uncaught error when the destination root exists and the source root
cannot be listed, while the commands group globs an empty list; status
raises the same uncaught error when the skills source root cannot be
listed. -/
theorem missing_roots_behavior (env : Env) (fs : FS) (fuel : Nat)
    (srcRoot destRoot cS cD : Path) (interactive : Bool) (inputs : List String) :
    (pathExists fs fuel srcRoot = false →
      install_skills env fs fuel srcRoot destRoot interactive inputs =
          ⟨fs, inputs, [], none⟩ ∧
        install_commands env fs fuel srcRoot destRoot interactive inputs =
          ⟨fs, inputs, [], none⟩) ∧
    (pathExists fs fuel destRoot = false →
      uninstall_skills env fs fuel srcRoot destRoot = ⟨fs, [], [], none⟩ ∧
        uninstall_commands env fs fuel srcRoot destRoot = ⟨fs, [], [], none⟩) ∧
    (pathExists fs fuel destRoot = true → env.children srcRoot = none →
      uninstall_skills env fs fuel srcRoot destRoot =
          ⟨fs, [], [], some PyError.fileNotFoundError⟩ ∧
        uninstall_commands env fs fuel srcRoot destRoot = ⟨fs, [], [], none⟩) ∧
    (env.children srcRoot = none →
      check_status env fs fuel srcRoot destRoot cS cD =
        Except.error PyError.fileNotFoundError) ∧
    countsInstalled [] = 0 ∧ countsSkipped [] = 0 ∧ countsRemoved [] = 0 := by
  refine ⟨?_, ?_, ?_, ?_, rfl, rfl, rfl⟩
  · intro h
    constructor
    · unfold install_skills
      simp [h]
    · unfold install_commands
      simp [h]
  · intro h
    constructor
    · unfold uninstall_skills
      simp [h]
    · unfold uninstall_commands
      simp [h]
  · intro h hch
    constructor
    · unfold uninstall_skills
      simp [h, hch]
    · unfold uninstall_commands
      simp [h, hch, globMd, sortedNames, List.insertionSort, uninstallGenLoop]
  · intro hch
    unfold check_status
    simp [hch]

/-- Witness for C3 (amended) at the two concrete absence fixtures. -/
theorem missing_roots_behavior_witness :
    pathExists c3bfs 2 c3Src = false ∧
    install_skills c3benv c3bfs 2 c3Src c3Dest true [] = ⟨c3bfs, [], [], none⟩ ∧
    pathExists c3fs 2 c3Dest = false ∧
    uninstall_skills c3env c3fs 2 c3Src c3Dest = ⟨c3fs, [], [], none⟩ ∧
    pathExists c3bfs 2 c3Dest = true ∧ c3benv.children c3Src = none ∧
    uninstall_commands c3benv c3bfs 2 c3Src c3Dest = ⟨c3bfs, [], [], none⟩ ∧
    check_status c3benv c3bfs 2 c3Src c3Dest c3Src c3Dest =
      Except.error PyError.fileNotFoundError := by
  refine ⟨by decide, ?_, by decide, ?_, by decide, by decide, ?_, ?_⟩
  · exact ((missing_roots_behavior c3benv c3bfs 2 c3Src c3Dest c3Src c3Dest true []).1
      (by decide)).1
  · exact ((missing_roots_behavior c3env c3fs 2 c3Src c3Dest c3Src c3Dest true []).2.1
      (by decide)).1
  · exact ((missing_roots_behavior c3benv c3bfs 2 c3Src c3Dest c3Src c3Dest true []).2.2.1
      (by decide) (by decide)).2
  · exact (missing_roots_behavior c3benv c3bfs 2 c3Src c3Dest c3Src c3Dest true []).2.2.2.1
      (by decide)

/-- Counterexample for C3 as stated: (a) with the destination root absent,
install does not report absence with zero progress - it creates the root,
installs the entry and tallies one installed; (b) with the destination
root present and the skills source root missing, uninstall raises an
uncaught error instead of completing. -/
theorem missing_roots_cx :
    c3fs.entries c3Dest = none ∧
    (install_skills c3env c3fs 2 c3Src c3Dest false []).report =
      [("alpha", Outcome.Installed)] ∧
    countsInstalled (install_skills c3env c3fs 2 c3Src c3Dest false []).report = 1 ∧
    (install_skills c3env c3fs 2 c3Src c3Dest false []).fs.entries c3Dest =
      some Entry.dir ∧
    (install_skills c3env c3fs 2 c3Src c3Dest false []).fs.entries (c3Dest ++ ["alpha"]) =
      some (Entry.symlink (c3Src ++ ["alpha"])) ∧
    pathExists c3bfs 2 c3Dest = true ∧ c3benv.children c3Src = none ∧
    (uninstall_skills c3benv c3bfs 2 c3Src c3Dest).err = some PyError.fileNotFoundError := by
  refine ⟨by decide, by decide, by decide, by decide, by decide, by decide, by decide,
    by decide⟩

/-- C4 (amended): in a status report, installed is true exactly when the
probe of the entry gives LinkedCorrect, and this holds for every reported
entry of both groups; in the skills section exactly the directory entries
carrying SKILL.md are reported - a non-directory or marker-missing entry
is omitted from the report entirely rather than surfaced as installed =
false; in the commands section every sorted non-README *.md name is
reported. Status returns only the report: it performs no filesystem
mutation. -/
theorem status_report_classification (env : Env) (fs : FS) (fuel : Nat)
    (sS sD cS cD : Path) (sr cr : List (String × Bool))
    (hok : check_status env fs fuel sS sD cS cD = Except.ok (sr, cr)) :
    (∀ n b, (n, b) ∈ sr →
      (b = true ↔ probe fs fuel (sD ++ [n]) (sS ++ [n]) = LinkState.LinkedCorrect)) ∧
    (∀ n ns, env.children sS = some ns → n ∈ sortedNames ns →
      isDir fs fuel (sS ++ [n]) = true → is_valid_skill fs fuel (sS ++ [n]) = true →
      (n, is_our_symlink fs fuel (sD ++ [n]) (sS ++ [n])) ∈ sr) ∧
    (∀ n b, (isDir fs fuel (sS ++ [n]) = false ∨ is_valid_skill fs fuel (sS ++ [n]) = false) →
      (n, b) ∉ sr) ∧
    (∀ n b, (n, b) ∈ cr →
      (b = true ↔ probe fs fuel (cD ++ [n]) (cS ++ [n]) = LinkState.LinkedCorrect)) ∧
    (∀ n, n ∈ sortedNames (globMd env cS) → n ≠ "README.md" →
      (n, is_our_symlink fs fuel (cD ++ [n]) (cS ++ [n])) ∈ cr) := by
  unfold check_status at hok
  cases hch : env.children sS with
  | none => rw [hch] at hok; cases hok
  | some ns =>
    rw [hch] at hok
    simp only [Except.ok.injEq, Prod.mk.injEq] at hok
    obtain ⟨hsr, hcr⟩ := hok
    refine ⟨?_, ?_, ?_, ?_, ?_⟩
    · intro n b hmem
      rw [← hsr] at hmem
      obtain ⟨m, hm, hf⟩ := List.mem_filterMap.mp hmem
      by_cases hg : isDir fs fuel (sS ++ [m]) && is_valid_skill fs fuel (sS ++ [m])
      · rw [if_pos hg] at hf
        simp only [Option.some.injEq, Prod.mk.injEq] at hf
        obtain ⟨hmn, hb⟩ := hf
        subst hmn
        rw [← hb, probe_eq_linkedCorrect_iff]
      · rw [if_neg hg] at hf
        cases hf
    · intro n ns' hns' hmem hdir hval
      have hns2 : ns' = ns := by
        injection hns' with h2
        exact h2.symm
      subst hns2
      rw [← hsr]
      refine List.mem_filterMap.mpr ⟨n, hmem, ?_⟩
      rw [if_pos (by rw [hdir, hval]; rfl)]
    · intro n b hbad hmem
      rw [← hsr] at hmem
      obtain ⟨m, hm, hf⟩ := List.mem_filterMap.mp hmem
      by_cases hg : isDir fs fuel (sS ++ [m]) && is_valid_skill fs fuel (sS ++ [m])
      · rw [if_pos hg] at hf
        simp only [Option.some.injEq, Prod.mk.injEq] at hf
        obtain ⟨hmn, hb⟩ := hf
        subst hmn
        rcases hbad with h | h
        · rw [h] at hg; simp at hg
        · rw [h] at hg; simp at hg
      · rw [if_neg hg] at hf
        cases hf
    · intro n b hmem
      rw [← hcr] at hmem
      obtain ⟨m, hm, hf⟩ := List.mem_filterMap.mp hmem
      by_cases hr : m = "README.md"
      · rw [if_pos hr] at hf
        cases hf
      · rw [if_neg hr] at hf
        simp only [Option.some.injEq, Prod.mk.injEq] at hf
        obtain ⟨hmn, hb⟩ := hf
        subst hmn
        rw [← hb, probe_eq_linkedCorrect_iff]
    · intro n hmem hr
      rw [← hcr]
      exact List.mem_filterMap.mpr ⟨n, hmem, by rw [if_neg hr]⟩

/-- Witness for C4 (amended) at the shared scenario: alpha is reported
with its probe value, the stray file is omitted, and a reported false
means the probe is not LinkedCorrect. -/
theorem status_report_classification_witness :
    check_status wEnv wFS 2 wSrc wDest ["repo", "commands"] ["home", "commands"] =
      Except.ok ([("alpha", false), ("els", false), ("occ", false)], []) ∧
    ("alpha", is_our_symlink wFS 2 (wDest ++ ["alpha"]) (wSrc ++ ["alpha"])) ∈
      ([("alpha", false), ("els", false), ("occ", false)] : List (String × Bool)) ∧
    ("file.txt", false) ∉
      ([("alpha", false), ("els", false), ("occ", false)] : List (String × Bool)) ∧
    (false = true ↔ probe wFS 2 (wDest ++ ["els"]) (wSrc ++ ["els"]) =
      LinkState.LinkedCorrect) := by
  have hok : check_status wEnv wFS 2 wSrc wDest ["repo", "commands"] ["home", "commands"] =
      Except.ok ([("alpha", false), ("els", false), ("occ", false)], []) := by rfl
  have h := status_report_classification wEnv wFS 2 wSrc wDest
    ["repo", "commands"] ["home", "commands"] _ _ hok
  refine ⟨hok, ?_, ?_, ?_⟩
  · exact h.2.1 "alpha" ["alpha", "occ", "file.txt", "els"] (by rfl) (by decide)
      (by decide) (by decide)
  · exact h.2.2.1 "file.txt" false (Or.inl (by decide))
  · exact h.1 "els" false (by decide)

/-- Counterexample for C4 as stated: the directory entry bad lacks its
marker file; the claim requires it to be reported with installed = false,
but the skills status report is empty - the entry is omitted. -/
theorem status_omits_invalid_cx :
    isDir c4fs 2 (c3Src ++ ["bad"]) = true ∧
    is_valid_skill c4fs 2 (c3Src ++ ["bad"]) = false ∧
    (check_status c4env c4fs 2 c3Src c3Dest c3Src c3Dest).toOption = some ([], []) := by
  exact ⟨by decide, by decide, by decide⟩

/-- Counterexample for C5 as stated. First scenario (interactive,
identical inputs both runs): the second run consumes the input stream at
different prompts, yields an Installed outcome and changes the
filesystem between runs. Second scenario (non-interactive, a source
entry that is a symlink aliasing through another destination): the two
runs report different tallies (1 installed / 1 skipped, then 2 / 0). -/
theorem install_not_idempotent_cx :
    (install_skills c5aEnv c5aFS 5 ["s"] ["d"] true ["y", "n"]).report =
      [("a", Outcome.Installed), ("b", Outcome.Skipped "declined replace")] ∧
    (install_skills c5aEnv (install_skills c5aEnv c5aFS 5 ["s"] ["d"] true ["y", "n"]).fs
        5 ["s"] ["d"] true ["y", "n"]).report =
      [("a", Outcome.AlreadyInstalled), ("b", Outcome.Installed)] ∧
    (install_skills c5aEnv c5aFS 5 ["s"] ["d"] true ["y", "n"]).fs.entries ["d", "b"] =
      some (Entry.symlink ["x1"]) ∧
    (install_skills c5aEnv (install_skills c5aEnv c5aFS 5 ["s"] ["d"] true ["y", "n"]).fs
        5 ["s"] ["d"] true ["y", "n"]).fs.entries ["d", "b"] =
      some (Entry.symlink ["s", "b"]) ∧
    countsInstalled (install_skills c5bEnv c5bFS 5 ["s"] ["d"] false []).report = 1 ∧
    countsSkipped (install_skills c5bEnv c5bFS 5 ["s"] ["d"] false []).report = 1 ∧
    countsInstalled (install_skills c5bEnv
      (install_skills c5bEnv c5bFS 5 ["s"] ["d"] false []).fs 5 ["s"] ["d"] false
      []).report = 2 ∧
    countsSkipped (install_skills c5bEnv
      (install_skills c5bEnv c5bFS 5 ["s"] ["d"] false []).fs 5 ["s"] ["d"] false
      []).report = 0 := by
  refine ⟨by decide, by decide, by decide, by decide, by decide, by decide, by decide,
    by decide⟩

/-- Counterexample for C8 as stated: entry els was Installed by an
interactive replacement of a pre-existing foreign link; after uninstall
removes the created link, the destination is absent, not the pre-install
link to ["other"]: the destination tree is not returned to its
pre-install state. -/
theorem roundtrip_replace_cx :
    wFS.entries (wDest ++ ["els"]) = some (Entry.symlink ["other"]) ∧
    ("els", Outcome.Installed) ∈ (install_skills wEnv wFS 2 wSrc wDest true ["y"]).report ∧
    (uninstall_skills wEnv (install_skills wEnv wFS 2 wSrc wDest true ["y"]).fs
      2 wSrc wDest).fs.entries (wDest ++ ["els"]) = none := by
  refine ⟨by decide, by decide, by decide⟩

/-! Path and list utilities for the run characterizations. -/

theorem append_singleton_inj {D : Path} {n m : String} : D ++ [n] = D ++ [m] ↔ n = m := by
  constructor
  · intro h
    have h2 := List.append_cancel_left h
    injection h2
  · intro h
    rw [h]

theorem sep_ne {S D : Path} (hsd : ¬ S <+: D) (hds : ¬ D <+: S) (l1 l2 : List String) :
    S ++ l1 ≠ D ++ l2 := by
  intro h
  rcases le_or_lt S.length D.length with hl | hl
  · apply hsd
    have h1 : S <+: D ++ l2 := h ▸ List.prefix_append S l1
    exact List.prefix_of_prefix_length_le h1 (List.prefix_append D l2) hl
  · apply hds
    have h1 : D <+: S ++ l1 := by
      rw [h]
      exact List.prefix_append D l2
    exact List.prefix_of_prefix_length_le h1 (List.prefix_append S l1) (le_of_lt hl)

theorem find?_destPath (D : Path) (n : String) (l : List String) :
    l.find? (fun m => decide (D ++ [n] = D ++ [m])) = if n ∈ l then some n else none := by
  induction l with
  | nil => rfl
  | cons a l ih =>
    by_cases h : n = a
    · subst h
      rw [List.find?_cons_of_pos _ (by simp), if_pos (List.mem_cons_self n l)]
    · rw [List.find?_cons_of_neg _ (by simp [append_singleton_inj, h]), ih]
      by_cases hm : n ∈ l
      · rw [if_pos hm, if_pos (List.mem_cons_of_mem a hm)]
      · rw [if_neg hm, if_neg (by simp [h, hm])]

theorem find?_append_single {f : String → Bool} {n : String} (l : List String)
    (hfn : f n = false) : (l ++ [n]).find? f = l.find? f := by
  induction l with
  | nil => simp [List.find?, hfn]
  | cons a l ih =>
    cases hfa : f a
    · rw [List.cons_append, List.find?_cons_of_neg _ (by simp [hfa]),
        List.find?_cons_of_neg _ (by simp [hfa]), ih]
    · rw [List.cons_append, List.find?_cons_of_pos _ hfa, List.find?_cons_of_pos _ hfa]

theorem find?_erase {f : String → Bool} {n : String} (l : List String)
    (hfn : f n = false) : (l.erase n).find? f = l.find? f := by
  induction l with
  | nil => rfl
  | cons a l ih =>
    by_cases h : a = n
    · subst h
      rw [List.erase_cons_head, List.find?_cons_of_neg _ (by simp [hfn])]
    · rw [List.erase_cons_tail (by simp [h])]
      cases hfa : f a
      · rw [List.find?_cons_of_neg _ (by simp [hfa]),
          List.find?_cons_of_neg _ (by simp [hfa]), ih]
      · rw [List.find?_cons_of_pos _ hfa, List.find?_cons_of_pos _ hfa]

/-! Pointwise description of applyCreated. -/

theorem applyCreated_entries (base : FS) (S D : Path) (l : List String) (p : Path) :
    (applyCreated base S D l).entries p =
      match l.find? (fun m => decide (p = D ++ [m])) with
      | some m => some (Entry.symlink (S ++ [m]))
      | none => base.entries p := rfl

theorem applyCreated_nil (base : FS) (S D : Path) : applyCreated base S D [] = base := by
  apply FS.eq_of_entries
  funext p
  rfl

theorem applyCreated_mem {base : FS} {S D : Path} {l : List String} {n : String}
    (hn : n ∈ l) :
    (applyCreated base S D l).entries (D ++ [n]) = some (Entry.symlink (S ++ [n])) := by
  rw [applyCreated_entries, find?_destPath, if_pos hn]

theorem applyCreated_not_mem {base : FS} {S D : Path} {l : List String} {n : String}
    (hn : n ∉ l) :
    (applyCreated base S D l).entries (D ++ [n]) = base.entries (D ++ [n]) := by
  rw [applyCreated_entries, find?_destPath, if_neg hn]

theorem applyCreated_of_ne {base : FS} {S D : Path} {l : List String} {p : Path}
    (hp : ∀ m, p ≠ D ++ [m]) :
    (applyCreated base S D l).entries p = base.entries p := by
  rw [applyCreated_entries]
  have hnone : l.find? (fun m => decide (p = D ++ [m])) = none := by
    rw [List.find?_eq_none]
    intro m hm
    simp [hp m]
  rw [hnone]

theorem applyCreated_snoc {base : FS} {S D : Path} {l : List String} {n : String} :
    (applyCreated base S D l).set (D ++ [n]) (some (Entry.symlink (S ++ [n]))) =
      applyCreated base S D (l ++ [n]) := by
  apply FS.eq_of_entries
  funext p
  rw [FS.set_entries]
  by_cases hp : p = D ++ [n]
  · rw [if_pos hp, hp, applyCreated_mem (by simp)]
  · rw [if_neg hp, applyCreated_entries, applyCreated_entries,
      find?_append_single l (by simp [hp])]

theorem applyCreated_erase {base : FS} {S D : Path} {l : List String} {n : String}
    (hnd : l.Nodup) (hb : base.entries (D ++ [n]) = none) :
    (applyCreated base S D l).set (D ++ [n]) none = applyCreated base S D (l.erase n) := by
  apply FS.eq_of_entries
  funext p
  rw [FS.set_entries]
  by_cases hp : p = D ++ [n]
  · rw [if_pos hp, hp, @applyCreated_not_mem base S D (l.erase n) n
      (by simp [List.Nodup.mem_erase_iff hnd]), hb]
  · rw [if_neg hp, applyCreated_entries, applyCreated_entries,
      find?_erase l (by simp [hp])]

/-! Evaluation of the shared install and uninstall bodies in each probe
situation over a locally symlink-free state. -/

theorem pathExists_none {fs : FS} {p : Path} (fuel : Nat) (he : fs.entries p = none) :
    pathExists fs fuel p = false := by
  cases fuel with
  | zero => rfl
  | succ k =>
    unfold pathExists
    rw [resolvePath_of_not_symlink (by simp [he]) (by omega)]
    simp [he]

theorem installLinkStep_occupied {env : Env} {fuel : Nat} {source target : Path}
    {interactive : Bool} {fs : FS} {inputs : List String} {e : Entry}
    (he : fs.entries target = some e) (hns : ∀ t, e ≠ Entry.symlink t) (hf : 1 ≤ fuel) :
    installLinkStep env fuel source target interactive fs inputs =
      ⟨fs, inputs, some (Outcome.Skipped "exists as file/directory"), none⟩ := by
  have hnsp : ∀ t, fs.entries target ≠ some (Entry.symlink t) := by
    intro t h
    rw [he] at h
    exact hns t (by injection h)
  have h1 := @is_our_symlink_of_not_symlink fs fuel target source hnsp
  have h2 := isSymlink_false_iff.mpr hnsp
  have h3 : pathExists fs fuel target = true := by
    rw [pathExists_of_not_symlink hnsp hf, he]
    rfl
  unfold installLinkStep
  simp [h1, h2, h3]

theorem installLinkStep_absent {env : Env} {fuel : Nat} {source target : Path}
    {interactive : Bool} {fs : FS} {inputs : List String}
    (he : fs.entries target = none) :
    installLinkStep env fuel source target interactive fs inputs =
      if env.symlinkOK target then
        ⟨fs.set target (some (Entry.symlink source)), inputs, some Outcome.Installed, none⟩
      else ⟨fs, inputs, some (Outcome.Skipped "create failed"), none⟩ := by
  have hnsp : ∀ t, fs.entries target ≠ some (Entry.symlink t) := by simp [he]
  have h1 := @is_our_symlink_of_not_symlink fs fuel target source hnsp
  have h2 := isSymlink_false_iff.mpr hnsp
  have h3 := @pathExists_none fs target fuel he
  unfold installLinkStep create_symlink
  by_cases hk : env.symlinkOK target <;> simp [h1, h2, h3, he, hk]

theorem installLinkStep_already {env : Env} {fuel : Nat} {source target : Path}
    {interactive : Bool} {fs : FS} {inputs : List String}
    (he : fs.entries target = some (Entry.symlink source))
    (hsrc : ∀ t, fs.entries source ≠ some (Entry.symlink t)) (hf : 2 ≤ fuel) :
    installLinkStep env fuel source target interactive fs inputs =
      ⟨fs, inputs, some Outcome.AlreadyInstalled, none⟩ := by
  obtain ⟨k, rfl⟩ : ∃ k, fuel = k + 1 := ⟨fuel - 1, by omega⟩
  have hres : resolvePath fs (k + 1) target = some source := by
    rw [resolvePath_symlink he, resolvePath_of_not_symlink hsrc (by omega)]
  have hres2 : resolvePath fs (k + 1) source = some source :=
    resolvePath_of_not_symlink hsrc (by omega)
  have hsym : isSymlink fs target = true := isSymlink_true_iff.mpr ⟨source, he⟩
  have h1 : is_our_symlink fs (k + 1) target source = true := by
    unfold is_our_symlink
    simp [hsym, hres, hres2]
  unfold installLinkStep
  simp [h1]

theorem uninstallLinkStep_removed {fs : FS} {fuel : Nat} {source target : Path}
    (he : fs.entries target = some (Entry.symlink source))
    (hsrc : ∀ t, fs.entries source ≠ some (Entry.symlink t)) (hf : 2 ≤ fuel) :
    uninstallLinkStep fs fuel source target = (unlink fs target, Outcome.Removed) := by
  obtain ⟨k, rfl⟩ : ∃ k, fuel = k + 1 := ⟨fuel - 1, by omega⟩
  have hres : resolvePath fs (k + 1) target = some source := by
    rw [resolvePath_symlink he, resolvePath_of_not_symlink hsrc (by omega)]
  have hres2 : resolvePath fs (k + 1) source = some source :=
    resolvePath_of_not_symlink hsrc (by omega)
  have hsym : isSymlink fs target = true := isSymlink_true_iff.mpr ⟨source, he⟩
  have h1 : is_our_symlink fs (k + 1) target source = true := by
    unfold is_our_symlink
    simp [hsym, hres, hres2]
  unfold uninstallLinkStep
  simp [h1]

theorem uninstallLinkStep_absent {fs : FS} {fuel : Nat} {source target : Path}
    (he : fs.entries target = none) :
    uninstallLinkStep fs fuel source target = (fs, Outcome.NotInstalled) := by
  have hnsp : ∀ t, fs.entries target ≠ some (Entry.symlink t) := by simp [he]
  have h1 := @is_our_symlink_of_not_symlink fs fuel target source hnsp
  have h2 := isSymlink_false_iff.mpr hnsp
  have h3 := @pathExists_none fs target fuel he
  unfold uninstallLinkStep
  simp [h1, h2, h3]

theorem uninstallLinkStep_nonlink {fs : FS} {fuel : Nat} {source target : Path}
    {e : Entry} (he : fs.entries target = some e) (hns : ∀ t, e ≠ Entry.symlink t)
    (hf : 1 ≤ fuel) :
    uninstallLinkStep fs fuel source target = (fs, Outcome.Skipped "not a symlink") := by
  have hnsp : ∀ t, fs.entries target ≠ some (Entry.symlink t) := by
    intro t h
    rw [he] at h
    exact hns t (by injection h)
  have h1 := @is_our_symlink_of_not_symlink fs fuel target source hnsp
  have h2 := isSymlink_false_iff.mpr hnsp
  have h3 : pathExists fs fuel target = true := by
    rw [pathExists_of_not_symlink hnsp hf, he]
    rfl
  unfold uninstallLinkStep
  simp [h1, h2, h3]

theorem installGenLoop_cons_skip {env : Env} {fuel : Nat} {S D : Path}
    {interactive : Bool} {gate : FS → String → GateR} {fs : FS} {inputs : List String}
    {n : String} {rest : List String} (hg : gate fs n = GateR.skip) :
    installGenLoop env fuel S D interactive gate fs inputs (n :: rest) =
      installGenLoop env fuel S D interactive gate fs inputs rest := by
  rw [installGenLoop_cons, hg]

theorem installGenLoop_cons_report {env : Env} {fuel : Nat} {S D : Path}
    {interactive : Bool} {gate : FS → String → GateR} {fs : FS} {inputs : List String}
    {n : String} {rest : List String} {o : Outcome} (hg : gate fs n = GateR.report o) :
    installGenLoop env fuel S D interactive gate fs inputs (n :: rest) =
      (let r := installGenLoop env fuel S D interactive gate fs inputs rest
       ⟨r.fs, r.inputs, (n, o) :: r.report, r.err⟩) := by
  rw [installGenLoop_cons, hg]

theorem installGenLoop_cons_go {env : Env} {fuel : Nat} {S D : Path}
    {interactive : Bool} {gate : FS → String → GateR} {fs fs' : FS}
    {inputs inputs' : List String} {n : String} {rest : List String} {o : Outcome}
    (hg : gate fs n = GateR.go)
    (hs : installLinkStep env fuel (S ++ [n]) (D ++ [n]) interactive fs inputs =
      ⟨fs', inputs', some o, none⟩) :
    installGenLoop env fuel S D interactive gate fs inputs (n :: rest) =
      (let r := installGenLoop env fuel S D interactive gate fs' inputs' rest
       ⟨r.fs, r.inputs, (n, o) :: r.report, r.err⟩) := by
  rw [installGenLoop_cons, hg, hs]
  rfl

/-- First-run characterization: over a symlink-free base extended by
already-created links away from the pending names, the install iteration
(either mode: no conflict prompt can fire) creates exactly the links its
plan marks Installed, reports exactly the plan, consumes no input and
raises nothing. -/
theorem installGenLoop_clean (env : Env) (fuel : Nat) (S D : Path) (interactive : Bool)
    (gate : FS → String → GateR) (g0 : String → GateR) (base : FS)
    (hnosym : ∀ p t, base.entries p ≠ some (Entry.symlink t))
    (hfuel : 1 ≤ fuel)
    (hgate : ∀ (l : List String) (n : String), gate (applyCreated base S D l) n = g0 n)
    (hrep : ∀ n o, g0 n = GateR.report o → o ≠ Outcome.Installed) :
    ∀ (names l inputs : List String), names.Nodup → (∀ n ∈ names, n ∉ l) →
      installGenLoop env fuel S D interactive gate (applyCreated base S D l) inputs names =
        ⟨applyCreated base S D (l ++ installsFrom env base g0 D names), inputs,
          planReport env base g0 D names, none⟩ := by
  intro names
  induction names with
  | nil =>
    intro l inputs hnd hdis
    rw [installGenLoop_nil]
    simp [installsFrom, planReport]
  | cons n rest ih =>
    intro l inputs hnd hdis
    obtain ⟨hnr, hnd'⟩ := List.nodup_cons.mp hnd
    have hnl : n ∉ l := hdis n (List.mem_cons_self n rest)
    have hdis' : ∀ m ∈ rest, m ∉ l := fun m hm => hdis m (List.mem_cons_of_mem n hm)
    cases hg : g0 n with
    | skip =>
      have hplan : planOutcome env base g0 D n = none := by
        simp [planOutcome, hg]
      rw [installGenLoop_cons_skip ((hgate l n).trans hg), ih l inputs hnd' hdis']
      simp [installsFrom, planReport, List.filter_cons, List.filterMap_cons, hplan]
    | report o =>
      have hplan : planOutcome env base g0 D n = some o := by
        simp [planOutcome, hg]
      rw [installGenLoop_cons_report ((hgate l n).trans hg), ih l inputs hnd' hdis']
      simp [installsFrom, planReport, List.filter_cons, List.filterMap_cons, hplan,
        hrep n o hg]
    | go =>
      have hDn : (applyCreated base S D l).entries (D ++ [n]) = base.entries (D ++ [n]) :=
        applyCreated_not_mem hnl
      cases hbase : base.entries (D ++ [n]) with
      | some e =>
        have hns : ∀ t, e ≠ Entry.symlink t := by
          intro t ht
          subst ht
          exact hnosym _ _ hbase
        have hplan : planOutcome env base g0 D n =
            some (Outcome.Skipped "exists as file/directory") := by
          cases e with
          | symlink t => exact absurd rfl (hns t)
          | file => simp [planOutcome, hg, hbase]
          | dir => simp [planOutcome, hg, hbase]
        rw [installGenLoop_cons_go ((hgate l n).trans hg)
          (installLinkStep_occupied (hDn.trans hbase) hns hfuel),
          ih l inputs hnd' hdis']
        simp [installsFrom, planReport, List.filter_cons, List.filterMap_cons, hplan]
      | none =>
        by_cases hok : env.symlinkOK (D ++ [n])
        · have hplan : planOutcome env base g0 D n = some Outcome.Installed := by
            simp [planOutcome, hg, hbase, hok]
          have hstep := @installLinkStep_absent env fuel (S ++ [n]) (D ++ [n])
            interactive (applyCreated base S D l) inputs (hDn.trans hbase)
          rw [if_pos hok] at hstep
          rw [installGenLoop_cons_go ((hgate l n).trans hg) hstep, applyCreated_snoc,
            ih (l ++ [n]) inputs hnd' ?_]
          · simp only [installsFrom, planReport, List.filter_cons, List.filterMap_cons,
              hplan]
            simp [List.append_assoc, installsFrom]
          · intro m hm
            simp only [List.mem_append, List.mem_singleton]
            rintro (hml | rfl)
            · exact hdis' m hm hml
            · exact hnr hm
        · have hplan : planOutcome env base g0 D n =
              some (Outcome.Skipped "create failed") := by
            simp [planOutcome, hg, hbase, hok]
          have hstep := @installLinkStep_absent env fuel (S ++ [n]) (D ++ [n])
            interactive (applyCreated base S D l) inputs (hDn.trans hbase)
          rw [if_neg hok] at hstep
          rw [installGenLoop_cons_go ((hgate l n).trans hg) hstep, ih l inputs hnd' hdis']
          simp [installsFrom, planReport, List.filter_cons, List.filterMap_cons, hplan]

/-- Second-run characterization: starting from the filesystem a clean
first run produced, every entry repeats its outcome except that
Installed becomes AlreadyInstalled; the filesystem is unchanged, no
input is consumed and nothing is raised. -/
theorem installGenLoop_idem (env : Env) (fuel : Nat) (S D : Path) (interactive : Bool)
    (gate : FS → String → GateR) (g0 : String → GateR) (base : FS) (C : List String)
    (hnosym : ∀ p t, base.entries p ≠ some (Entry.symlink t))
    (hfuel : 2 ≤ fuel)
    (hsep : ∀ l1 l2 : List String, S ++ l1 ≠ D ++ l2)
    (hgate : ∀ (l : List String) (n : String), gate (applyCreated base S D l) n = g0 n)
    (hrep : ∀ n o, g0 n = GateR.report o → o ≠ Outcome.Installed)
    (hC : ∀ n ∈ C, base.entries (D ++ [n]) = none) :
    ∀ (names inputs : List String),
      (∀ n ∈ names, (n ∈ C ↔ planOutcome env base g0 D n = some Outcome.Installed)) →
      installGenLoop env fuel S D interactive gate (applyCreated base S D C) inputs names =
        ⟨applyCreated base S D C, inputs, planReportSecond env base g0 D names, none⟩ := by
  intro names
  induction names with
  | nil =>
    intro inputs _
    rw [installGenLoop_nil]
    simp [planReportSecond]
  | cons n rest ih =>
    intro inputs hmem
    have hmem' : ∀ m ∈ rest, (m ∈ C ↔ planOutcome env base g0 D m = some Outcome.Installed) :=
      fun m hm => hmem m (List.mem_cons_of_mem n hm)
    have hmemn := hmem n (List.mem_cons_self n rest)
    cases hg : g0 n with
    | skip =>
      have hplan : planOutcome env base g0 D n = none := by
        simp [planOutcome, hg]
      rw [installGenLoop_cons_skip ((hgate C n).trans hg), ih inputs hmem']
      simp [planReportSecond, List.filterMap_cons, hplan]
    | report o =>
      have hplan : planOutcome env base g0 D n = some o := by
        simp [planOutcome, hg]
      rw [installGenLoop_cons_report ((hgate C n).trans hg), ih inputs hmem']
      simp [planReportSecond, List.filterMap_cons, hplan, mapAlready, hrep n o hg]
    | go =>
      cases hbase : base.entries (D ++ [n]) with
      | some e =>
        have hns : ∀ t, e ≠ Entry.symlink t := by
          intro t ht
          subst ht
          exact hnosym _ _ hbase
        have hnotC : n ∉ C := by
          intro hn
          rw [hC n hn] at hbase
          cases hbase
        have hDn : (applyCreated base S D C).entries (D ++ [n]) = some e :=
          (applyCreated_not_mem hnotC).trans hbase
        have hplan : planOutcome env base g0 D n =
            some (Outcome.Skipped "exists as file/directory") := by
          cases e with
          | symlink t => exact absurd rfl (hns t)
          | file => simp [planOutcome, hg, hbase]
          | dir => simp [planOutcome, hg, hbase]
        rw [installGenLoop_cons_go ((hgate C n).trans hg)
          (installLinkStep_occupied hDn hns (by omega)), ih inputs hmem']
        simp [planReportSecond, List.filterMap_cons, hplan, mapAlready]
      | none =>
        by_cases hok : env.symlinkOK (D ++ [n])
        · have hplan : planOutcome env base g0 D n = some Outcome.Installed := by
            simp [planOutcome, hg, hbase, hok]
          have hnC : n ∈ C := hmemn.mpr hplan
          have hDn : (applyCreated base S D C).entries (D ++ [n]) =
              some (Entry.symlink (S ++ [n])) := applyCreated_mem hnC
          have hsrcns : ∀ t,
              (applyCreated base S D C).entries (S ++ [n]) ≠ some (Entry.symlink t) := by
            rw [applyCreated_of_ne (fun m => hsep [n] [m])]
            exact hnosym (S ++ [n])
          rw [installGenLoop_cons_go ((hgate C n).trans hg)
            (installLinkStep_already hDn hsrcns hfuel), ih inputs hmem']
          simp [planReportSecond, List.filterMap_cons, hplan, mapAlready]
        · have hplan : planOutcome env base g0 D n =
              some (Outcome.Skipped "create failed") := by
            simp [planOutcome, hg, hbase, hok]
          have hnotC : n ∉ C := by
            intro hn
            have h2 := hmemn.mp hn
            rw [hplan] at h2
            cases h2
          have hDn : (applyCreated base S D C).entries (D ++ [n]) = none :=
            (applyCreated_not_mem hnotC).trans hbase
          have hstep := @installLinkStep_absent env fuel (S ++ [n]) (D ++ [n])
            interactive (applyCreated base S D C) inputs hDn
          rw [if_neg hok] at hstep
          rw [installGenLoop_cons_go ((hgate C n).trans hg) hstep, ih inputs hmem']
          simp [planReportSecond, List.filterMap_cons, hplan, mapAlready]

theorem pathExists_dir {fs : FS} {p : Path} {fuel : Nat}
    (h : fs.entries p = some Entry.dir) (hf : 1 ≤ fuel) :
    pathExists fs fuel p = true := by
  rw [pathExists_of_not_symlink (by simp [h]) hf, h]
  rfl

theorem mkdirs_clean {fs : FS} {fuel : Nat} {droot : Path}
    (hnosym : ∀ p t, fs.entries p ≠ some (Entry.symlink t)) (hf : 1 ≤ fuel)
    (hdest : fs.entries droot = none ∨ fs.entries droot = some Entry.dir) :
    ∃ base, mkdirs fs fuel droot = Except.ok base ∧
      (∀ p t, base.entries p ≠ some (Entry.symlink t)) ∧
      base.entries droot = some Entry.dir ∧
      (∀ p, p ≠ droot → base.entries p = fs.entries p) := by
  rcases hdest with h | h
  · refine ⟨fs.set droot (some Entry.dir), ?_, ?_, ?_, ?_⟩
    · unfold mkdirs
      rw [if_pos h]
    · intro p t
      rw [FS.set_entries]
      split_ifs with hp
      · simp
      · exact hnosym p t
    · rw [FS.set_entries, if_pos rfl]
    · intro p hp
      rw [FS.set_entries, if_neg hp]
  · have hd : isDir fs fuel droot = true := by
      rw [isDir_of_not_symlink (hnosym droot) hf, h]
      simp
    refine ⟨fs, ?_, hnosym, h, fun p _ => rfl⟩
    unfold mkdirs
    rw [if_neg (by simp [h]), if_pos hd]

theorem skillsGate_stable (base : FS) (fuel : Nat) (S D : Path)
    (hnosym : ∀ p t, base.entries p ≠ some (Entry.symlink t)) (hf : 1 ≤ fuel)
    (hsep : ∀ l1 l2 : List String, S ++ l1 ≠ D ++ l2)
    (l : List String) (n : String) :
    skillsGate (applyCreated base S D l) fuel S n = skillsGate base fuel S n := by
  have h1 : (applyCreated base S D l).entries (S ++ [n]) = base.entries (S ++ [n]) :=
    applyCreated_of_ne (fun m => hsep [n] [m])
  have h2 : (applyCreated base S D l).entries ((S ++ [n]) ++ ["SKILL.md"]) =
      base.entries ((S ++ [n]) ++ ["SKILL.md"]) := by
    have h3 : ∀ m, (S ++ [n]) ++ ["SKILL.md"] ≠ D ++ [m] := by
      intro m
      rw [List.append_assoc]
      exact hsep ([n] ++ ["SKILL.md"]) [m]
    exact applyCreated_of_ne h3
  have hns1 : ∀ t, (applyCreated base S D l).entries (S ++ [n]) ≠
      some (Entry.symlink t) := by
    rw [h1]
    exact hnosym (S ++ [n])
  have hns2 : ∀ t, (applyCreated base S D l).entries ((S ++ [n]) ++ ["SKILL.md"]) ≠
      some (Entry.symlink t) := by
    rw [h2]
    exact hnosym ((S ++ [n]) ++ ["SKILL.md"])
  unfold skillsGate is_valid_skill
  rw [isDir_of_not_symlink hns1 hf, isDir_of_not_symlink (hnosym (S ++ [n])) hf, h1,
    pathExists_of_not_symlink hns2 hf,
    pathExists_of_not_symlink (hnosym ((S ++ [n]) ++ ["SKILL.md"])) hf, h2]

theorem planReport_mem_iff {env : Env} {base : FS} {g0 : String → GateR} {D : Path}
    {names : List String} {n : String} {o : Outcome} :
    (n, o) ∈ planReport env base g0 D names ↔
      n ∈ names ∧ planOutcome env base g0 D n = some o := by
  constructor
  · intro h
    obtain ⟨m, hm, hf⟩ := List.mem_filterMap.mp h
    cases ho : planOutcome env base g0 D m with
    | none => rw [ho] at hf; cases hf
    | some o' =>
      rw [ho] at hf
      have hf2 : (m, o') = (n, o) := Option.some.inj hf
      have h1 : m = n := congrArg Prod.fst hf2
      have h2 : o' = o := congrArg Prod.snd hf2
      subst h1
      subst h2
      exact ⟨hm, ho⟩
  · intro ⟨hm, ho⟩
    exact List.mem_filterMap.mpr ⟨n, hm, by rw [ho]; rfl⟩

theorem planReportSecond_mem_iff {env : Env} {base : FS} {g0 : String → GateR} {D : Path}
    {names : List String} {n : String} {o : Outcome} :
    (n, o) ∈ planReportSecond env base g0 D names ↔
      n ∈ names ∧ ∃ o', planOutcome env base g0 D n = some o' ∧ o = mapAlready o' := by
  constructor
  · intro h
    obtain ⟨m, hm, hf⟩ := List.mem_filterMap.mp h
    cases ho : planOutcome env base g0 D m with
    | none => rw [ho] at hf; cases hf
    | some o' =>
      rw [ho] at hf
      have hf2 : (m, mapAlready o') = (n, o) := Option.some.inj hf
      have h1 : m = n := congrArg Prod.fst hf2
      have h2 : mapAlready o' = o := congrArg Prod.snd hf2
      subst h1
      exact ⟨hm, o', ho, h2.symm⟩
  · intro ⟨hm, o', ho, he⟩
    subst he
    exact List.mem_filterMap.mpr ⟨n, hm, by rw [ho]; rfl⟩

theorem mapAlready_ne_installed (o : Outcome) : mapAlready o ≠ Outcome.Installed := by
  unfold mapAlready
  split_ifs with h
  · simp
  · exact h

theorem counts_planReportSecond (env : Env) (base : FS) (g0 : String → GateR) (D : Path) :
    ∀ names : List String,
      countsInstalled (planReportSecond env base g0 D names) =
          countsInstalled (planReport env base g0 D names) ∧
        countsSkipped (planReportSecond env base g0 D names) =
          countsSkipped (planReport env base g0 D names) := by
  intro names
  induction names with
  | nil => exact ⟨rfl, rfl⟩
  | cons n rest ih =>
    cases ho : planOutcome env base g0 D n with
    | none =>
      simpa [planReport, planReportSecond, List.filterMap_cons, ho] using ih
    | some o =>
      cases o <;>
          simp [planReport, planReportSecond, List.filterMap_cons, ho, mapAlready,
            countsInstalled, countsSkipped, ih.1, ih.2] <;>
        exact ih

theorem planOutcome_skip {env : Env} {base : FS} {g0 : String → GateR} {D : Path}
    {n : String} (hg : g0 n = GateR.skip) : planOutcome env base g0 D n = none := by
  unfold planOutcome
  rw [hg]

theorem planOutcome_report {env : Env} {base : FS} {g0 : String → GateR} {D : Path}
    {n : String} {o : Outcome} (hg : g0 n = GateR.report o) :
    planOutcome env base g0 D n = some o := by
  unfold planOutcome
  rw [hg]

theorem planOutcome_go {env : Env} {base : FS} {g0 : String → GateR} {D : Path}
    {n : String} (hg : g0 n = GateR.go) :
    planOutcome env base g0 D n =
      match base.entries (D ++ [n]) with
      | none =>
        if env.symlinkOK (D ++ [n]) then some Outcome.Installed
        else some (Outcome.Skipped "create failed")
      | some (Entry.symlink _) => some Outcome.AlreadyInstalled
      | some _ => some (Outcome.Skipped "exists as file/directory") := by
  unfold planOutcome
  rw [hg]

theorem install_skills_idem_clean (env : Env) (fs : FS) (fuel : Nat) (S D : Path)
    (interactive : Bool) (inputs inputs2 names : List String)
    (hnosym : ∀ p t, fs.entries p ≠ some (Entry.symlink t)) (hfuel : 2 ≤ fuel)
    (hsd : ¬ S <+: D) (hds : ¬ D <+: S)
    (hS : fs.entries S = some Entry.dir)
    (hD : fs.entries D = none ∨ fs.entries D = some Entry.dir)
    (hch : env.children S = some names) (hnd : names.Nodup) :
    ∃ base C,
      install_skills env fs fuel S D interactive inputs =
        ⟨applyCreated base S D C, inputs,
          planReport env base (fun n => skillsGate base fuel S n) D (sortedNames names),
          none⟩ ∧
      install_skills env (applyCreated base S D C) fuel S D interactive inputs2 =
        ⟨applyCreated base S D C, inputs2,
          planReportSecond env base (fun n => skillsGate base fuel S n) D
            (sortedNames names), none⟩ := by
  have hsep := sep_ne hsd hds
  obtain ⟨base, hmk, hbnosym, hbD, hbother⟩ :=
    @mkdirs_clean fs fuel D hnosym (by omega) hD
  have hSD : S ≠ D := by
    intro h
    exact hsep [] [] (by simpa using h)
  have hbS : base.entries S = some Entry.dir := by
    rw [hbother S hSD]
    exact hS
  have hg1 : pathExists fs fuel S = true := pathExists_dir hS (by omega)
  have hgate : ∀ (l : List String) (n : String),
      (fun f m => skillsGate f fuel S m) (applyCreated base S D l) n =
        skillsGate base fuel S n :=
    fun l n => skillsGate_stable base fuel S D hbnosym (by omega) hsep l n
  have hrep : ∀ n o, skillsGate base fuel S n = GateR.report o →
      o ≠ Outcome.Installed := by
    intro n o h hc
    subst hc
    unfold skillsGate at h
    split_ifs at h
    all_goals simp at h
  have hnd' : (sortedNames names).Nodup :=
    ((List.perm_insertionSort (fun a b => strLe a b = true) names).nodup_iff).mpr hnd
  have hrun1core := installGenLoop_clean env fuel S D interactive
    (fun f m => skillsGate f fuel S m) (fun n => skillsGate base fuel S n) base
    hbnosym (by omega) hgate hrep (sortedNames names) [] inputs hnd' (by simp)
  rw [applyCreated_nil] at hrun1core
  refine ⟨base,
    installsFrom env base (fun n => skillsGate base fuel S n) D (sortedNames names),
    ?_, ?_⟩
  · unfold install_skills
    rw [if_neg (by simp [hg1]), hmk, hch]
    simpa using hrun1core
  · have hfsS : (applyCreated base S D
        (installsFrom env base (fun n => skillsGate base fuel S n) D
          (sortedNames names))).entries S = some Entry.dir := by
      rw [applyCreated_of_ne (fun m => by simpa using hsep [] [m])]
      exact hbS
    have hg2 := pathExists_dir hfsS (show 1 ≤ fuel by omega)
    have hfsD : (applyCreated base S D
        (installsFrom env base (fun n => skillsGate base fuel S n) D
          (sortedNames names))).entries D = some Entry.dir := by
      rw [applyCreated_of_ne (fun m h => ?_)]
      · exact hbD
      · have h2 := congrArg List.length h
        simp at h2
    have hmk2 : mkdirs (applyCreated base S D
        (installsFrom env base (fun n => skillsGate base fuel S n) D
          (sortedNames names))) fuel D =
        Except.ok (applyCreated base S D
          (installsFrom env base (fun n => skillsGate base fuel S n) D
            (sortedNames names))) := by
      unfold mkdirs
      rw [if_neg (by simp [hfsD]), if_pos ?_]
      rw [isDir_of_not_symlink (by rw [hfsD]; simp) (by omega), hfsD]
      simp
    have hCmem : ∀ n ∈ sortedNames names,
        (n ∈ installsFrom env base (fun n => skillsGate base fuel S n) D
            (sortedNames names) ↔
          planOutcome env base (fun n => skillsGate base fuel S n) D n =
            some Outcome.Installed) := by
      intro n hn
      constructor
      · intro h
        have h2 := List.mem_filter.mp h
        simpa using h2.2
      · intro h
        exact List.mem_filter.mpr ⟨hn, by simp [h]⟩
    have hCabs : ∀ n ∈ installsFrom env base (fun n => skillsGate base fuel S n) D
        (sortedNames names), base.entries (D ++ [n]) = none := by
      intro n hn
      have h2 := List.mem_filter.mp hn
      have hplan : planOutcome env base (fun n => skillsGate base fuel S n) D n =
          some Outcome.Installed := by simpa using h2.2
      cases hg : skillsGate base fuel S n with
      | skip =>
        rw [planOutcome_skip hg] at hplan
        cases hplan
      | report o =>
        rw [planOutcome_report hg] at hplan
        have h3 : o = Outcome.Installed := by injection hplan
        exact absurd h3 (hrep n o hg)
      | go =>
        rw [planOutcome_go hg] at hplan
        cases hb : base.entries (D ++ [n]) with
        | none => rfl
        | some e =>
          rw [hb] at hplan
          cases e with
          | file => cases hplan
          | dir => cases hplan
          | symlink t => cases hplan
    have hrun2core := installGenLoop_idem env fuel S D interactive
      (fun f m => skillsGate f fuel S m) (fun n => skillsGate base fuel S n) base
      (installsFrom env base (fun n => skillsGate base fuel S n) D (sortedNames names))
      hbnosym hfuel hsep hgate hrep hCabs (sortedNames names) inputs2 hCmem
    unfold install_skills
    rw [if_neg (by simp [hg2]), hmk2, hch]
    exact hrun2core

theorem install_commands_idem_clean (env : Env) (fs : FS) (fuel : Nat) (S D : Path)
    (interactive : Bool) (inputs inputs2 : List String)
    (hnosym : ∀ p t, fs.entries p ≠ some (Entry.symlink t)) (hfuel : 2 ≤ fuel)
    (hsd : ¬ S <+: D) (hds : ¬ D <+: S)
    (hS : fs.entries S = some Entry.dir)
    (hD : fs.entries D = none ∨ fs.entries D = some Entry.dir)
    (hnd : (globMd env S).Nodup) :
    ∃ base C,
      install_commands env fs fuel S D interactive inputs =
        ⟨applyCreated base S D C, inputs,
          planReport env base commandsGate D (sortedNames (globMd env S)), none⟩ ∧
      install_commands env (applyCreated base S D C) fuel S D interactive inputs2 =
        ⟨applyCreated base S D C, inputs2,
          planReportSecond env base commandsGate D (sortedNames (globMd env S)),
          none⟩ := by
  have hsep := sep_ne hsd hds
  obtain ⟨base, hmk, hbnosym, hbD, hbother⟩ :=
    @mkdirs_clean fs fuel D hnosym (by omega) hD
  have hSD : S ≠ D := by
    intro h
    exact hsep [] [] (by simpa using h)
  have hbS : base.entries S = some Entry.dir := by
    rw [hbother S hSD]
    exact hS
  have hg1 : pathExists fs fuel S = true := pathExists_dir hS (by omega)
  have hgate : ∀ (l : List String) (n : String),
      (fun (_ : FS) m => commandsGate m) (applyCreated base S D l) n = commandsGate n :=
    fun _ _ => rfl
  have hrep : ∀ n o, commandsGate n = GateR.report o → o ≠ Outcome.Installed := by
    intro n o h hc
    subst hc
    unfold commandsGate at h
    split_ifs at h
  have hnd' : (sortedNames (globMd env S)).Nodup :=
    ((List.perm_insertionSort (fun a b => strLe a b = true) (globMd env S)).nodup_iff).mpr
      hnd
  have hrun1core := installGenLoop_clean env fuel S D interactive
    (fun (_ : FS) m => commandsGate m) commandsGate base hbnosym (by omega) hgate hrep
    (sortedNames (globMd env S)) [] inputs hnd' (by simp)
  rw [applyCreated_nil] at hrun1core
  refine ⟨base, installsFrom env base commandsGate D (sortedNames (globMd env S)),
    ?_, ?_⟩
  · unfold install_commands
    rw [if_neg (by simp [hg1]), hmk]
    simpa using hrun1core
  · have hfsS : (applyCreated base S D
        (installsFrom env base commandsGate D (sortedNames (globMd env S)))).entries S =
        some Entry.dir := by
      rw [applyCreated_of_ne (fun m => by simpa using hsep [] [m])]
      exact hbS
    have hg2 := pathExists_dir hfsS (show 1 ≤ fuel by omega)
    have hfsD : (applyCreated base S D
        (installsFrom env base commandsGate D (sortedNames (globMd env S)))).entries D =
        some Entry.dir := by
      rw [applyCreated_of_ne (fun m h => ?_)]
      · exact hbD
      · have h2 := congrArg List.length h
        simp at h2
    have hmk2 : mkdirs (applyCreated base S D
        (installsFrom env base commandsGate D (sortedNames (globMd env S)))) fuel D =
        Except.ok (applyCreated base S D
          (installsFrom env base commandsGate D (sortedNames (globMd env S)))) := by
      unfold mkdirs
      rw [if_neg (by simp [hfsD]), if_pos ?_]
      rw [isDir_of_not_symlink (by rw [hfsD]; simp) (by omega), hfsD]
      simp
    have hCmem : ∀ n ∈ sortedNames (globMd env S),
        (n ∈ installsFrom env base commandsGate D (sortedNames (globMd env S)) ↔
          planOutcome env base commandsGate D n = some Outcome.Installed) := by
      intro n hn
      constructor
      · intro h
        have h2 := List.mem_filter.mp h
        simpa using h2.2
      · intro h
        exact List.mem_filter.mpr ⟨hn, by simp [h]⟩
    have hCabs : ∀ n ∈ installsFrom env base commandsGate D
        (sortedNames (globMd env S)), base.entries (D ++ [n]) = none := by
      intro n hn
      have h2 := List.mem_filter.mp hn
      have hplan : planOutcome env base commandsGate D n = some Outcome.Installed := by
        simpa using h2.2
      cases hg : commandsGate n with
      | skip =>
        rw [planOutcome_skip hg] at hplan
        cases hplan
      | report o =>
        rw [planOutcome_report hg] at hplan
        have h3 : o = Outcome.Installed := by injection hplan
        exact absurd h3 (hrep n o hg)
      | go =>
        rw [planOutcome_go hg] at hplan
        cases hb : base.entries (D ++ [n]) with
        | none => rfl
        | some e =>
          rw [hb] at hplan
          cases e with
          | file => cases hplan
          | dir => cases hplan
          | symlink t => cases hplan
    have hrun2core := installGenLoop_idem env fuel S D interactive
      (fun (_ : FS) m => commandsGate m) commandsGate base
      (installsFrom env base commandsGate D (sortedNames (globMd env S)))
      hbnosym hfuel hsep hgate hrep hCabs (sortedNames (globMd env S)) inputs2 hCmem
    unfold install_commands
    rw [if_neg (by simp [hg2]), hmk2]
    exact hrun2core

/-- C5 (amended): install is idempotent over a filesystem containing no
symbolic links, with source and destination roots in separate subtrees,
a listed directory source root, a destination root absent or a
directory, and distinct entry names; then no conflict prompt can fire,
so the mode and input stream are irrelevant. Both runs raise nothing and
read no input; the second run returns the first run filesystem
unchanged, produces no Installed outcome, reports every entry the first
run Installed as AlreadyInstalled, and both runs tally identical
installed and skipped counts. The counterexample shows the claim fails
without these conditions: an interactive second run can consume the
identical input stream at different prompts and install an entry, and a
symlinked source entry can flip tallies between runs. -/
theorem install_idempotent_clean :
    (∀ (env : Env) (fs : FS) (fuel : Nat) (S D : Path) (interactive : Bool)
       (inputs inputs2 names : List String),
      (∀ p t, fs.entries p ≠ some (Entry.symlink t)) → 2 ≤ fuel →
      ¬ S <+: D → ¬ D <+: S →
      fs.entries S = some Entry.dir →
      (fs.entries D = none ∨ fs.entries D = some Entry.dir) →
      env.children S = some names → names.Nodup →
      (install_skills env fs fuel S D interactive inputs).err = none ∧
      (install_skills env fs fuel S D interactive inputs).inputs = inputs ∧
      (install_skills env (install_skills env fs fuel S D interactive inputs).fs fuel S D
        interactive inputs2).err = none ∧
      (install_skills env (install_skills env fs fuel S D interactive inputs).fs fuel S D
          interactive inputs2).fs =
        (install_skills env fs fuel S D interactive inputs).fs ∧
      (install_skills env (install_skills env fs fuel S D interactive inputs).fs fuel S D
        interactive inputs2).inputs = inputs2 ∧
      (∀ n, (n, Outcome.Installed) ∉
        (install_skills env (install_skills env fs fuel S D interactive inputs).fs fuel
          S D interactive inputs2).report) ∧
      (∀ n, (n, Outcome.Installed) ∈
          (install_skills env fs fuel S D interactive inputs).report →
        (n, Outcome.AlreadyInstalled) ∈
          (install_skills env (install_skills env fs fuel S D interactive inputs).fs fuel
            S D interactive inputs2).report) ∧
      countsInstalled (install_skills env (install_skills env fs fuel S D interactive
          inputs).fs fuel S D interactive inputs2).report =
        countsInstalled (install_skills env fs fuel S D interactive inputs).report ∧
      countsSkipped (install_skills env (install_skills env fs fuel S D interactive
          inputs).fs fuel S D interactive inputs2).report =
        countsSkipped (install_skills env fs fuel S D interactive inputs).report) ∧
    (∀ (env : Env) (fs : FS) (fuel : Nat) (S D : Path) (interactive : Bool)
       (inputs inputs2 : List String),
      (∀ p t, fs.entries p ≠ some (Entry.symlink t)) → 2 ≤ fuel →
      ¬ S <+: D → ¬ D <+: S →
      fs.entries S = some Entry.dir →
      (fs.entries D = none ∨ fs.entries D = some Entry.dir) →
      (globMd env S).Nodup →
      (install_commands env fs fuel S D interactive inputs).err = none ∧
      (install_commands env fs fuel S D interactive inputs).inputs = inputs ∧
      (install_commands env (install_commands env fs fuel S D interactive inputs).fs fuel
        S D interactive inputs2).err = none ∧
      (install_commands env (install_commands env fs fuel S D interactive inputs).fs fuel
          S D interactive inputs2).fs =
        (install_commands env fs fuel S D interactive inputs).fs ∧
      (∀ n, (n, Outcome.Installed) ∉
        (install_commands env (install_commands env fs fuel S D interactive inputs).fs
          fuel S D interactive inputs2).report) ∧
      (∀ n, (n, Outcome.Installed) ∈
          (install_commands env fs fuel S D interactive inputs).report →
        (n, Outcome.AlreadyInstalled) ∈
          (install_commands env (install_commands env fs fuel S D interactive inputs).fs
            fuel S D interactive inputs2).report) ∧
      countsInstalled (install_commands env (install_commands env fs fuel S D interactive
          inputs).fs fuel S D interactive inputs2).report =
        countsInstalled (install_commands env fs fuel S D interactive inputs).report ∧
      countsSkipped (install_commands env (install_commands env fs fuel S D interactive
          inputs).fs fuel S D interactive inputs2).report =
        countsSkipped (install_commands env fs fuel S D interactive inputs).report) := by
  constructor
  · intro env fs fuel S D interactive inputs inputs2 names hnosym hfuel hsd hds hS hD
      hch hnd
    obtain ⟨base, C, h1, h2⟩ := install_skills_idem_clean env fs fuel S D interactive
      inputs inputs2 names hnosym hfuel hsd hds hS hD hch hnd
    have hfs1 : (install_skills env fs fuel S D interactive inputs).fs =
        applyCreated base S D C := by rw [h1]
    have h2' : install_skills env (install_skills env fs fuel S D interactive inputs).fs
        fuel S D interactive inputs2 =
        ⟨applyCreated base S D C, inputs2,
          planReportSecond env base (fun n => skillsGate base fuel S n) D
            (sortedNames names), none⟩ := by
      rw [hfs1]
      exact h2
    refine ⟨by rw [h1], by rw [h1], by rw [h2'], by rw [h2', hfs1], by rw [h2'], ?_, ?_,
      ?_, ?_⟩
    · intro n hmem
      rw [h2'] at hmem
      obtain ⟨-, o', -, ho⟩ := planReportSecond_mem_iff.mp hmem
      exact mapAlready_ne_installed o' ho.symm
    · intro n hmem
      rw [h1] at hmem
      rw [h2']
      obtain ⟨hn, hplan⟩ := planReport_mem_iff.mp hmem
      exact planReportSecond_mem_iff.mpr ⟨hn, Outcome.Installed, hplan, by rfl⟩
    · rw [h2', h1]
      exact (counts_planReportSecond env base (fun n => skillsGate base fuel S n) D
        (sortedNames names)).1
    · rw [h2', h1]
      exact (counts_planReportSecond env base (fun n => skillsGate base fuel S n) D
        (sortedNames names)).2
  · intro env fs fuel S D interactive inputs inputs2 hnosym hfuel hsd hds hS hD hnd
    obtain ⟨base, C, h1, h2⟩ := install_commands_idem_clean env fs fuel S D interactive
      inputs inputs2 hnosym hfuel hsd hds hS hD hnd
    have hfs1 : (install_commands env fs fuel S D interactive inputs).fs =
        applyCreated base S D C := by rw [h1]
    have h2' : install_commands env
        (install_commands env fs fuel S D interactive inputs).fs fuel S D interactive
          inputs2 =
        ⟨applyCreated base S D C, inputs2,
          planReportSecond env base commandsGate D (sortedNames (globMd env S)),
          none⟩ := by
      rw [hfs1]
      exact h2
    refine ⟨by rw [h1], by rw [h1], by rw [h2'], by rw [h2', hfs1], ?_, ?_, ?_, ?_⟩
    · intro n hmem
      rw [h2'] at hmem
      obtain ⟨-, o', -, ho⟩ := planReportSecond_mem_iff.mp hmem
      exact mapAlready_ne_installed o' ho.symm
    · intro n hmem
      rw [h1] at hmem
      rw [h2']
      obtain ⟨hn, hplan⟩ := planReport_mem_iff.mp hmem
      exact planReportSecond_mem_iff.mpr ⟨hn, Outcome.Installed, hplan, by rfl⟩
    · rw [h2', h1]
      exact (counts_planReportSecond env base commandsGate D
        (sortedNames (globMd env S))).1
    · rw [h2', h1]
      exact (counts_planReportSecond env base commandsGate D
        (sortedNames (globMd env S))).2

/-- Witness for C5 (amended): the clean one-skill scenario and the clean
one-command scenario, both run twice. -/
theorem install_idempotent_clean_witness :
    (∀ p t, c3fs.entries p ≠ some (Entry.symlink t)) ∧ 2 ≤ 2 ∧
    ¬ c3Src <+: c3Dest ∧ ¬ c3Dest <+: c3Src ∧
    c3fs.entries c3Src = some Entry.dir ∧
    (c3fs.entries c3Dest = none ∨ c3fs.entries c3Dest = some Entry.dir) ∧
    c3env.children c3Src = some ["alpha"] ∧ (["alpha"] : List String).Nodup ∧
    (install_skills c3env c3fs 2 c3Src c3Dest false []).err = none ∧
    (install_skills c3env (install_skills c3env c3fs 2 c3Src c3Dest false []).fs
      2 c3Src c3Dest false []).err = none ∧
    (install_skills c3env (install_skills c3env c3fs 2 c3Src c3Dest false []).fs
        2 c3Src c3Dest false []).fs =
      (install_skills c3env c3fs 2 c3Src c3Dest false []).fs ∧
    (("alpha", Outcome.Installed) ∉
      (install_skills c3env (install_skills c3env c3fs 2 c3Src c3Dest false []).fs
        2 c3Src c3Dest false []).report) ∧
    countsInstalled (install_skills c3env (install_skills c3env c3fs 2 c3Src c3Dest
        false []).fs 2 c3Src c3Dest false []).report =
      countsInstalled (install_skills c3env c3fs 2 c3Src c3Dest false []).report ∧
    (∀ p t, c5wFS.entries p ≠ some (Entry.symlink t)) ∧
    c5wFS.entries c3Src = some Entry.dir ∧ (globMd c5wEnv c3Src).Nodup ∧
    (install_commands c5wEnv c5wFS 2 c3Src c3Dest false []).err = none ∧
    (install_commands c5wEnv (install_commands c5wEnv c5wFS 2 c3Src c3Dest false []).fs
        2 c3Src c3Dest false []).fs =
      (install_commands c5wEnv c5wFS 2 c3Src c3Dest false []).fs ∧
    countsSkipped (install_commands c5wEnv (install_commands c5wEnv c5wFS 2 c3Src c3Dest
        false []).fs 2 c3Src c3Dest false []).report =
      countsSkipped (install_commands c5wEnv c5wFS 2 c3Src c3Dest false []).report := by
  have hno1 : ∀ p t, c3fs.entries p ≠ some (Entry.symlink t) := by
    intro p t
    show (if p = c3Src then some Entry.dir
      else if p = c3Src ++ ["alpha"] then some Entry.dir
      else if p = c3Src ++ ["alpha", "SKILL.md"] then some Entry.file
      else none) ≠ some (Entry.symlink t)
    split_ifs <;> simp
  have hno2 : ∀ p t, c5wFS.entries p ≠ some (Entry.symlink t) := by
    intro p t
    show (if p = c3Src then some Entry.dir
      else if p = c3Src ++ ["a.md"] then some Entry.file
      else none) ≠ some (Entry.symlink t)
    split_ifs <;> simp
  have hsk := install_idempotent_clean.1 c3env c3fs 2 c3Src c3Dest false [] [] ["alpha"]
    hno1 (by decide) (by decide) (by decide) (by decide) (Or.inl (by decide))
    (by decide) (by decide)
  have hcm := install_idempotent_clean.2 c5wEnv c5wFS 2 c3Src c3Dest false [] []
    hno2 (by decide) (by decide) (by decide) (by decide) (Or.inl (by decide))
    (by decide)
  exact ⟨hno1, by decide, by decide, by decide, by decide, Or.inl (by decide),
    by decide, by decide, hsk.1, hsk.2.2.1, hsk.2.2.2.1, hsk.2.2.2.2.2.1 "alpha",
    hsk.2.2.2.2.2.2.2.1, hno2, by decide, by decide, hcm.1, hcm.2.2.2.1,
    hcm.2.2.2.2.2.2.2⟩

theorem uninstallGenLoop_cons_true {fuel : Nat} {S D : Path} {gate : FS → String → Bool}
    {fs fs2 : FS} {n : String} {rest : List String} {o : Outcome}
    (hg : gate fs n = true)
    (hstep : uninstallLinkStep fs fuel (S ++ [n]) (D ++ [n]) = (fs2, o)) :
    uninstallGenLoop fuel S D gate fs (n :: rest) =
      ⟨(uninstallGenLoop fuel S D gate fs2 rest).fs, [],
        (n, o) :: (uninstallGenLoop fuel S D gate fs2 rest).report,
        (uninstallGenLoop fuel S D gate fs2 rest).err⟩ := by
  rw [uninstallGenLoop_cons, if_pos hg, hstep]

theorem uninstallGenLoop_cons_false {fuel : Nat} {S D : Path} {gate : FS → String → Bool}
    {fs : FS} {n : String} {rest : List String}
    (hg : gate fs n = false) :
    uninstallGenLoop fuel S D gate fs (n :: rest) =
      uninstallGenLoop fuel S D gate fs rest := by
  rw [uninstallGenLoop_cons, if_neg (by simp [hg])]

theorem uplanReport_congr {g0u : String → Bool} {base : FS} {D : Path}
    {cl1 cl2 : List String} :
    ∀ (names : List String), (∀ m ∈ names, (m ∈ cl1 ↔ m ∈ cl2)) →
      uplanReport g0u base D cl1 names = uplanReport g0u base D cl2 names := by
  intro names
  induction names with
  | nil => intro h; rfl
  | cons n rest ih =>
    intro h
    have hout : uplanOutcome base D cl1 n = uplanOutcome base D cl2 n := by
      unfold uplanOutcome
      by_cases hc : n ∈ cl1
      · rw [if_pos hc, if_pos ((h n (List.mem_cons_self n rest)).mp hc)]
      · rw [if_neg hc,
          if_neg (fun hc2 => hc ((h n (List.mem_cons_self n rest)).mpr hc2))]
    have htail := ih (fun m hm => h m (List.mem_cons_of_mem n hm))
    by_cases hg : g0u n
    · simp only [uplanReport, List.filterMap_cons, if_pos hg, hout] at htail ⊢
      exact congrArg _ htail
    · simp only [uplanReport, List.filterMap_cons, if_neg hg] at htail ⊢
      exact htail

theorem uremain_erase {C rest : List String} {g0u : String → Bool} {n : String}
    (hndC : C.Nodup) (hg : g0u n = true) :
    (C.erase n).filter (fun m => !(decide (m ∈ rest) && g0u m)) =
      C.filter (fun m => !(decide (m ∈ n :: rest) && g0u m)) := by
  rw [hndC.erase_eq_filter, List.filter_filter]
  apply List.filter_congr
  intro m hm
  by_cases hmn : m = n
  · subst hmn
    simp [hg]
  · simp [hmn, List.mem_cons]

theorem uninstallGenLoop_clean (fuel : Nat) (S D : Path)
    (gate : FS → String → Bool) (g0u : String → Bool) (base : FS)
    (hnosym : ∀ p t, base.entries p ≠ some (Entry.symlink t))
    (hfuel : 2 ≤ fuel)
    (hsep : ∀ l1 l2 : List String, S ++ l1 ≠ D ++ l2)
    (hgate : ∀ (l : List String) (n : String),
      gate (applyCreated base S D l) n = g0u n) :
    ∀ (names C : List String), names.Nodup → C.Nodup →
      (∀ m ∈ C, base.entries (D ++ [m]) = none) →
      uninstallGenLoop fuel S D gate (applyCreated base S D C) names =
        ⟨applyCreated base S D
            (C.filter (fun m => !(decide (m ∈ names) && g0u m))), [],
          uplanReport g0u base D C names, none⟩ := by
  intro names
  induction names with
  | nil =>
    intro C hndn hndC hCnone
    rw [uninstallGenLoop_nil]
    have hfil : C.filter (fun m => !(decide (m ∈ ([] : List String)) && g0u m)) = C :=
      List.filter_eq_self.mpr (fun a _ => by simp)
    rw [hfil]
    rfl
  | cons n rest ih =>
    intro C hndn hndC hCnone
    obtain ⟨hnr, hndn2⟩ := List.nodup_cons.mp hndn
    have hgC := hgate C n
    by_cases hg : g0u n
    · rw [hg] at hgC
      by_cases hmem : n ∈ C
      · have hent : (applyCreated base S D C).entries (D ++ [n]) =
            some (Entry.symlink (S ++ [n])) := applyCreated_mem hmem
        have hsrc : ∀ t, (applyCreated base S D C).entries (S ++ [n]) ≠
            some (Entry.symlink t) := by
          rw [applyCreated_of_ne (fun m => hsep [n] [m])]
          exact hnosym (S ++ [n])
        have hstep := uninstallLinkStep_removed hent hsrc hfuel
        have hunl : unlink (applyCreated base S D C) (D ++ [n]) =
            applyCreated base S D (C.erase n) := by
          unfold unlink
          exact applyCreated_erase hndC (hCnone n hmem)
        rw [hunl] at hstep
        rw [uninstallGenLoop_cons_true hgC hstep,
          ih (C.erase n) hndn2 (hndC.erase n)
            (fun m hm => hCnone m (List.mem_of_mem_erase hm))]
        have hcg : uplanReport g0u base D (C.erase n) rest =
            uplanReport g0u base D C rest := by
          apply uplanReport_congr rest
          intro m hm
          have hmn : m ≠ n := fun h => hnr (h ▸ hm)
          rw [List.Nodup.mem_erase_iff hndC]
          simp [hmn]
        have hhead : uplanReport g0u base D C (n :: rest) =
            (n, Outcome.Removed) :: uplanReport g0u base D C rest := by
          simp [uplanReport, List.filterMap_cons, hg, uplanOutcome, hmem]
        rw [hhead, hcg, uremain_erase hndC hg]
      · have hDn : (applyCreated base S D C).entries (D ++ [n]) =
            base.entries (D ++ [n]) := applyCreated_not_mem hmem
        have hfil : C.filter (fun m => !(decide (m ∈ rest) && g0u m)) =
            C.filter (fun m => !(decide (m ∈ n :: rest) && g0u m)) := by
          apply List.filter_congr
          intro m hm
          have hmn : m ≠ n := fun h => hmem (h ▸ hm)
          simp [hmn, List.mem_cons]
        cases hbase : base.entries (D ++ [n]) with
        | none =>
          have hstep := @uninstallLinkStep_absent (applyCreated base S D C) fuel
            (S ++ [n]) (D ++ [n]) (hDn.trans hbase)
          rw [uninstallGenLoop_cons_true hgC hstep, ih C hndn2 hndC hCnone]
          have hhead : uplanReport g0u base D C (n :: rest) =
              (n, Outcome.NotInstalled) :: uplanReport g0u base D C rest := by
            simp [uplanReport, List.filterMap_cons, hg, uplanOutcome, hmem, hbase]
          rw [hhead, hfil]
        | some e =>
          have hns : ∀ t, e ≠ Entry.symlink t := by
            intro t ht
            subst ht
            exact hnosym _ _ hbase
          have hstep := @uninstallLinkStep_nonlink (applyCreated base S D C) fuel
            (S ++ [n]) (D ++ [n]) e (hDn.trans hbase) hns (by omega)
          rw [uninstallGenLoop_cons_true hgC hstep, ih C hndn2 hndC hCnone]
          have hhead : uplanReport g0u base D C (n :: rest) =
              (n, Outcome.Skipped "not a symlink") :: uplanReport g0u base D C rest := by
            cases e with
            | symlink t => exact absurd rfl (hns t)
            | file => simp [uplanReport, List.filterMap_cons, hg, uplanOutcome, hmem, hbase]
            | dir => simp [uplanReport, List.filterMap_cons, hg, uplanOutcome, hmem, hbase]
          rw [hhead, hfil]
    · rw [Bool.not_eq_true] at hg
      rw [hg] at hgC
      rw [uninstallGenLoop_cons_false hgC, ih C hndn2 hndC hCnone]
      have hfil : C.filter (fun m => !(decide (m ∈ rest) && g0u m)) =
          C.filter (fun m => !(decide (m ∈ n :: rest) && g0u m)) := by
        apply List.filter_congr
        intro m hm
        by_cases hmn : m = n
        · subst hmn
          simp [hg]
        · simp [hmn, List.mem_cons]
      have hhead : uplanReport g0u base D C (n :: rest) =
          uplanReport g0u base D C rest := by
        simp [uplanReport, List.filterMap_cons, hg]
      rw [hhead, hfil]

theorem skillsGate_go_isDir {fs : FS} {fuel : Nat} {S : Path} {n : String}
    (h : skillsGate fs fuel S n = GateR.go) : isDir fs fuel (S ++ [n]) = true := by
  unfold skillsGate at h
  by_cases h1 : isDir fs fuel (S ++ [n]) = false
  · rw [if_pos h1] at h
    simp at h
  · simpa using h1

theorem installsFrom_entry_none {env : Env} {base : FS} {g0 : String → GateR} {D : Path}
    {names : List String} {m : String}
    (hrep : ∀ n o, g0 n = GateR.report o → o ≠ Outcome.Installed)
    (hm : m ∈ installsFrom env base g0 D names) :
    base.entries (D ++ [m]) = none ∧ g0 m = GateR.go ∧ m ∈ names := by
  unfold installsFrom at hm
  obtain ⟨hmem, hplan⟩ := List.mem_filter.mp hm
  have hp : planOutcome env base g0 D m = some Outcome.Installed :=
    of_decide_eq_true hplan
  unfold planOutcome at hp
  cases hg : g0 m with
  | skip =>
    rw [hg] at hp
    simp at hp
  | report o =>
    rw [hg] at hp
    simp at hp
    exact absurd hp (hrep m o hg)
  | go =>
    rw [hg] at hp
    cases hbase : base.entries (D ++ [m]) with
    | none => exact ⟨rfl, rfl, hmem⟩
    | some e =>
      rw [hbase] at hp
      cases e <;> simp at hp

theorem uplanReport_mem {g0u : String → Bool} {base : FS} {D : Path}
    {cl names : List String} {n : String} (hn : n ∈ names) (hg : g0u n = true)
    (hc : n ∈ cl) :
    (n, Outcome.Removed) ∈ uplanReport g0u base D cl names := by
  unfold uplanReport
  rw [List.mem_filterMap]
  exact ⟨n, hn, by simp [hg, uplanOutcome, hc]⟩

theorem roundtrip_skills_core (env : Env) (fs : FS) (fuel : Nat) (S D : Path)
    (interactive : Bool) (inputs names : List String)
    (hnosym : ∀ p t, fs.entries p ≠ some (Entry.symlink t)) (hfuel : 2 ≤ fuel)
    (hsd : ¬ S <+: D) (hds : ¬ D <+: S)
    (hS : fs.entries S = some Entry.dir) (hD : fs.entries D = some Entry.dir)
    (hch : env.children S = some names) (hnd : names.Nodup) :
    install_skills env fs fuel S D interactive inputs =
      ⟨applyCreated fs S D
          (installsFrom env fs (fun n => skillsGate fs fuel S n) D (sortedNames names)),
        inputs, planReport env fs (fun n => skillsGate fs fuel S n) D (sortedNames names),
        none⟩ ∧
    uninstall_skills env
        (applyCreated fs S D
          (installsFrom env fs (fun n => skillsGate fs fuel S n) D (sortedNames names)))
        fuel S D =
      ⟨fs, [],
        uplanReport (fun n => isDir fs fuel (S ++ [n])) fs D
          (installsFrom env fs (fun n => skillsGate fs fuel S n) D (sortedNames names))
          (sortedNames names), none⟩ := by
  have hsep := sep_ne hsd hds
  have hg1 : pathExists fs fuel S = true := pathExists_dir hS (by omega)
  have hdir : isDir fs fuel D = true := by
    rw [isDir_of_not_symlink (hnosym D) (by omega), hD]
    simp
  have hmk : mkdirs fs fuel D = Except.ok fs := by
    unfold mkdirs
    rw [if_neg (by simp [hD]), if_pos hdir]
  have hgate : ∀ (l : List String) (n : String),
      (fun f m => skillsGate f fuel S m) (applyCreated fs S D l) n =
        skillsGate fs fuel S n :=
    fun l n => skillsGate_stable fs fuel S D hnosym (by omega) hsep l n
  have hrep : ∀ n o, skillsGate fs fuel S n = GateR.report o →
      o ≠ Outcome.Installed := by
    intro n o h hc
    subst hc
    unfold skillsGate at h
    split_ifs at h
    all_goals simp at h
  have hnd2 : (sortedNames names).Nodup :=
    ((List.perm_insertionSort (fun a b => strLe a b = true) names).nodup_iff).mpr hnd
  have hrun1core := installGenLoop_clean env fuel S D interactive
    (fun f m => skillsGate f fuel S m) (fun n => skillsGate fs fuel S n) fs
    hnosym (by omega) hgate hrep (sortedNames names) [] inputs hnd2 (by simp)
  rw [applyCreated_nil] at hrun1core
  constructor
  · unfold install_skills
    rw [if_neg (by simp [hg1]), hmk, hch]
    simpa using hrun1core
  · have hCnd : (installsFrom env fs (fun n => skillsGate fs fuel S n) D
        (sortedNames names)).Nodup := List.Nodup.filter _ hnd2
    have hCprops : ∀ m ∈ installsFrom env fs (fun n => skillsGate fs fuel S n) D
        (sortedNames names), fs.entries (D ++ [m]) = none ∧
        skillsGate fs fuel S m = GateR.go ∧ m ∈ sortedNames names :=
      fun m hm => installsFrom_entry_none hrep hm
    have hugate : ∀ (l : List String) (n : String),
        (fun f n => isDir f fuel (S ++ [n])) (applyCreated fs S D l) n =
          isDir fs fuel (S ++ [n]) := by
      intro l n
      have h1 : (applyCreated fs S D l).entries (S ++ [n]) = fs.entries (S ++ [n]) :=
        applyCreated_of_ne (fun m => hsep [n] [m])
      have hns : ∀ t, (applyCreated fs S D l).entries (S ++ [n]) ≠
          some (Entry.symlink t) := by
        rw [h1]
        exact hnosym (S ++ [n])
      show isDir (applyCreated fs S D l) fuel (S ++ [n]) = isDir fs fuel (S ++ [n])
      rw [isDir_of_not_symlink hns (by omega),
        isDir_of_not_symlink (hnosym (S ++ [n])) (by omega), h1]
    have hDpres : (applyCreated fs S D (installsFrom env fs
        (fun n => skillsGate fs fuel S n) D (sortedNames names))).entries D =
        some Entry.dir := by
      rw [applyCreated_of_ne (fun m h => ?_)]
      · exact hD
      · have h2 := congrArg List.length h
        simp at h2
    have hpe : pathExists (applyCreated fs S D (installsFrom env fs
        (fun n => skillsGate fs fuel S n) D (sortedNames names))) fuel D = true :=
      pathExists_dir hDpres (by omega)
    have hloop := uninstallGenLoop_clean fuel S D
      (fun f n => isDir f fuel (S ++ [n])) (fun n => isDir fs fuel (S ++ [n])) fs
      hnosym hfuel hsep hugate (sortedNames names)
      (installsFrom env fs (fun n => skillsGate fs fuel S n) D (sortedNames names))
      hnd2 hCnd (fun m hm => (hCprops m hm).1)
    have hempty : (installsFrom env fs (fun n => skillsGate fs fuel S n) D
        (sortedNames names)).filter
        (fun m => !(decide (m ∈ sortedNames names) &&
          (fun n => isDir fs fuel (S ++ [n])) m)) = [] := by
      rw [List.filter_eq_nil_iff]
      intro m hm
      obtain ⟨-, hgo, hmem⟩ := hCprops m hm
      simp [hmem, skillsGate_go_isDir hgo]
    unfold uninstall_skills
    rw [if_neg (by simp [hpe]), hch]
    show uninstallGenLoop fuel S D (fun f n => isDir f fuel (S ++ [n]))
        (applyCreated fs S D (installsFrom env fs (fun n => skillsGate fs fuel S n) D
          (sortedNames names))) (sortedNames names) = _
    rw [hloop, hempty, applyCreated_nil]

theorem commandsGate_go_ne {n : String} (h : commandsGate n = GateR.go) :
    n ≠ "README.md" := by
  intro hn
  unfold commandsGate at h
  rw [if_pos hn] at h
  simp at h

theorem roundtrip_commands_core (env : Env) (fs : FS) (fuel : Nat) (S D : Path)
    (interactive : Bool) (inputs : List String)
    (hnosym : ∀ p t, fs.entries p ≠ some (Entry.symlink t)) (hfuel : 2 ≤ fuel)
    (hsd : ¬ S <+: D) (hds : ¬ D <+: S)
    (hS : fs.entries S = some Entry.dir) (hD : fs.entries D = some Entry.dir)
    (hnd : (globMd env S).Nodup) :
    install_commands env fs fuel S D interactive inputs =
      ⟨applyCreated fs S D
          (installsFrom env fs commandsGate D (sortedNames (globMd env S))),
        inputs, planReport env fs commandsGate D (sortedNames (globMd env S)),
        none⟩ ∧
    uninstall_commands env
        (applyCreated fs S D
          (installsFrom env fs commandsGate D (sortedNames (globMd env S))))
        fuel S D =
      ⟨fs, [],
        uplanReport (fun n => decide (n ≠ "README.md")) fs D
          (installsFrom env fs commandsGate D (sortedNames (globMd env S)))
          (sortedNames (globMd env S)), none⟩ := by
  have hsep := sep_ne hsd hds
  have hg1 : pathExists fs fuel S = true := pathExists_dir hS (by omega)
  have hdir : isDir fs fuel D = true := by
    rw [isDir_of_not_symlink (hnosym D) (by omega), hD]
    simp
  have hmk : mkdirs fs fuel D = Except.ok fs := by
    unfold mkdirs
    rw [if_neg (by simp [hD]), if_pos hdir]
  have hgate : ∀ (l : List String) (n : String),
      (fun (_ : FS) m => commandsGate m) (applyCreated fs S D l) n = commandsGate n :=
    fun _ _ => rfl
  have hrep : ∀ n o, commandsGate n = GateR.report o → o ≠ Outcome.Installed := by
    intro n o h hc
    subst hc
    unfold commandsGate at h
    split_ifs at h
  have hnd2 : (sortedNames (globMd env S)).Nodup :=
    ((List.perm_insertionSort (fun a b => strLe a b = true) (globMd env S)).nodup_iff).mpr
      hnd
  have hrun1core := installGenLoop_clean env fuel S D interactive
    (fun (_ : FS) m => commandsGate m) commandsGate fs hnosym (by omega) hgate hrep
    (sortedNames (globMd env S)) [] inputs hnd2 (by simp)
  rw [applyCreated_nil] at hrun1core
  constructor
  · unfold install_commands
    rw [if_neg (by simp [hg1]), hmk]
    simpa using hrun1core
  · have hCnd : (installsFrom env fs commandsGate D
        (sortedNames (globMd env S))).Nodup := List.Nodup.filter _ hnd2
    have hCprops : ∀ m ∈ installsFrom env fs commandsGate D (sortedNames (globMd env S)),
        fs.entries (D ++ [m]) = none ∧ commandsGate m = GateR.go ∧
        m ∈ sortedNames (globMd env S) :=
      fun m hm => installsFrom_entry_none hrep hm
    have hugate : ∀ (l : List String) (n : String),
        (fun (_ : FS) n => decide (n ≠ "README.md")) (applyCreated fs S D l) n =
          decide (n ≠ "README.md") :=
      fun _ _ => rfl
    have hDpres : (applyCreated fs S D (installsFrom env fs commandsGate D
        (sortedNames (globMd env S)))).entries D = some Entry.dir := by
      rw [applyCreated_of_ne (fun m h => ?_)]
      · exact hD
      · have h2 := congrArg List.length h
        simp at h2
    have hpe : pathExists (applyCreated fs S D (installsFrom env fs commandsGate D
        (sortedNames (globMd env S)))) fuel D = true :=
      pathExists_dir hDpres (by omega)
    have hloop := uninstallGenLoop_clean fuel S D
      (fun (_ : FS) n => decide (n ≠ "README.md")) (fun n => decide (n ≠ "README.md")) fs
      hnosym hfuel hsep hugate (sortedNames (globMd env S))
      (installsFrom env fs commandsGate D (sortedNames (globMd env S)))
      hnd2 hCnd (fun m hm => (hCprops m hm).1)
    have hempty : (installsFrom env fs commandsGate D
        (sortedNames (globMd env S))).filter
        (fun m => !(decide (m ∈ sortedNames (globMd env S)) &&
          (fun n => decide (n ≠ "README.md")) m)) = [] := by
      rw [List.filter_eq_nil_iff]
      intro m hm
      obtain ⟨-, hgo, hmem⟩ := hCprops m hm
      simp [hmem, commandsGate_go_ne hgo]
    unfold uninstall_commands
    rw [if_neg (by simp [hpe])]
    show uninstallGenLoop fuel S D (fun (_ : FS) n => decide (n ≠ "README.md"))
        (applyCreated fs S D (installsFrom env fs commandsGate D
          (sortedNames (globMd env S)))) (sortedNames (globMd env S)) = _
    rw [hloop, hempty, applyCreated_nil]

/-- C8 (amended): over a symlink-free pre-install state whose source and
destination roots exist as directories and are not nested in one another,
install followed by uninstall is a genuine round trip for each group:
both runs finish without error, the uninstall run restores the
filesystem exactly to its pre-install state, and every entry the install
run reported Installed is reported Removed by the uninstall run, its
destination path being absent both before install and after uninstall. -/
theorem roundtrip_restores_clean :
    (∀ (env : Env) (fs : FS) (fuel : Nat) (S D : Path) (interactive : Bool)
        (inputs names : List String),
      (∀ p t, fs.entries p ≠ some (Entry.symlink t)) → 2 ≤ fuel →
      ¬ S <+: D → ¬ D <+: S →
      fs.entries S = some Entry.dir → fs.entries D = some Entry.dir →
      env.children S = some names → names.Nodup →
      (install_skills env fs fuel S D interactive inputs).err = none ∧
      (uninstall_skills env (install_skills env fs fuel S D interactive inputs).fs
          fuel S D).err = none ∧
      (uninstall_skills env (install_skills env fs fuel S D interactive inputs).fs
          fuel S D).fs = fs ∧
      (∀ n, (n, Outcome.Installed) ∈
          (install_skills env fs fuel S D interactive inputs).report →
        (n, Outcome.Removed) ∈ (uninstall_skills env
            (install_skills env fs fuel S D interactive inputs).fs fuel S D).report ∧
        fs.entries (D ++ [n]) = none ∧
        (uninstall_skills env (install_skills env fs fuel S D interactive inputs).fs
            fuel S D).fs.entries (D ++ [n]) = none)) ∧
    (∀ (env : Env) (fs : FS) (fuel : Nat) (S D : Path) (interactive : Bool)
        (inputs : List String),
      (∀ p t, fs.entries p ≠ some (Entry.symlink t)) → 2 ≤ fuel →
      ¬ S <+: D → ¬ D <+: S →
      fs.entries S = some Entry.dir → fs.entries D = some Entry.dir →
      (globMd env S).Nodup →
      (install_commands env fs fuel S D interactive inputs).err = none ∧
      (uninstall_commands env (install_commands env fs fuel S D interactive inputs).fs
          fuel S D).err = none ∧
      (uninstall_commands env (install_commands env fs fuel S D interactive inputs).fs
          fuel S D).fs = fs ∧
      (∀ n, (n, Outcome.Installed) ∈
          (install_commands env fs fuel S D interactive inputs).report →
        (n, Outcome.Removed) ∈ (uninstall_commands env
            (install_commands env fs fuel S D interactive inputs).fs fuel S D).report ∧
        fs.entries (D ++ [n]) = none ∧
        (uninstall_commands env (install_commands env fs fuel S D interactive inputs).fs
            fuel S D).fs.entries (D ++ [n]) = none)) := by
  constructor
  · intro env fs fuel S D interactive inputs names hnosym hfuel hsd hds hS hD hch hnd
    obtain ⟨h1, h2⟩ := roundtrip_skills_core env fs fuel S D interactive inputs names
      hnosym hfuel hsd hds hS hD hch hnd
    have hrep : ∀ n o, skillsGate fs fuel S n = GateR.report o →
        o ≠ Outcome.Installed := by
      intro n o h hc
      subst hc
      unfold skillsGate at h
      split_ifs at h
      all_goals simp at h
    simp only [h1]
    simp only [h2]
    refine ⟨trivial, trivial, trivial, ?_⟩
    intro n hmem
    obtain ⟨hmem2, hplan⟩ := planReport_mem_iff.mp hmem
    have hC : n ∈ installsFrom env fs (fun m => skillsGate fs fuel S m) D
        (sortedNames names) := by
      unfold installsFrom
      exact List.mem_filter.mpr ⟨hmem2, by simp [hplan]⟩
    obtain ⟨hnone, hgo, -⟩ := installsFrom_entry_none hrep hC
    refine ⟨?_, hnone, hnone⟩
    exact uplanReport_mem hmem2 (skillsGate_go_isDir hgo) hC
  · intro env fs fuel S D interactive inputs hnosym hfuel hsd hds hS hD hnd
    obtain ⟨h1, h2⟩ := roundtrip_commands_core env fs fuel S D interactive inputs
      hnosym hfuel hsd hds hS hD hnd
    have hrep : ∀ n o, commandsGate n = GateR.report o → o ≠ Outcome.Installed := by
      intro n o h hc
      subst hc
      unfold commandsGate at h
      split_ifs at h
    simp only [h1]
    simp only [h2]
    refine ⟨trivial, trivial, trivial, ?_⟩
    intro n hmem
    obtain ⟨hmem2, hplan⟩ := planReport_mem_iff.mp hmem
    have hC : n ∈ installsFrom env fs commandsGate D (sortedNames (globMd env S)) := by
      unfold installsFrom
      exact List.mem_filter.mpr ⟨hmem2, by simp [hplan]⟩
    obtain ⟨hnone, hgo, -⟩ := installsFrom_entry_none hrep hC
    refine ⟨?_, hnone, hnone⟩
    exact uplanReport_mem hmem2 (by simp [commandsGate_go_ne hgo]) hC

/-- Witness for C8 (amended): a one-skill and a one-command clean
scenario, installed then uninstalled. -/
theorem roundtrip_restores_clean_witness :
    (∀ p t, c8fs.entries p ≠ some (Entry.symlink t)) ∧ 2 ≤ 2 ∧
    ¬ c3Src <+: c3Dest ∧ ¬ c3Dest <+: c3Src ∧
    c8fs.entries c3Src = some Entry.dir ∧ c8fs.entries c3Dest = some Entry.dir ∧
    c3env.children c3Src = some ["alpha"] ∧ (["alpha"] : List String).Nodup ∧
    (install_skills c3env c8fs 2 c3Src c3Dest false []).err = none ∧
    (uninstall_skills c3env (install_skills c3env c8fs 2 c3Src c3Dest false []).fs
        2 c3Src c3Dest).err = none ∧
    (uninstall_skills c3env (install_skills c3env c8fs 2 c3Src c3Dest false []).fs
        2 c3Src c3Dest).fs = c8fs ∧
    (("alpha", Outcome.Installed) ∈
      (install_skills c3env c8fs 2 c3Src c3Dest false []).report) ∧
    (("alpha", Outcome.Removed) ∈ (uninstall_skills c3env
        (install_skills c3env c8fs 2 c3Src c3Dest false []).fs 2 c3Src c3Dest).report) ∧
    c8fs.entries (c3Dest ++ ["alpha"]) = none ∧
    (∀ p t, c8cfs.entries p ≠ some (Entry.symlink t)) ∧
    c8cfs.entries c3Src = some Entry.dir ∧ c8cfs.entries c3Dest = some Entry.dir ∧
    (globMd c5wEnv c3Src).Nodup ∧
    (install_commands c5wEnv c8cfs 2 c3Src c3Dest false []).err = none ∧
    (uninstall_commands c5wEnv
        (install_commands c5wEnv c8cfs 2 c3Src c3Dest false []).fs
        2 c3Src c3Dest).fs = c8cfs ∧
    (("a.md", Outcome.Removed) ∈ (uninstall_commands c5wEnv
        (install_commands c5wEnv c8cfs 2 c3Src c3Dest false []).fs
        2 c3Src c3Dest).report) := by
  have hno1 : ∀ p t, c8fs.entries p ≠ some (Entry.symlink t) := by
    intro p t
    show (if p = c3Src then some Entry.dir
      else if p = c3Src ++ ["alpha"] then some Entry.dir
      else if p = c3Src ++ ["alpha", "SKILL.md"] then some Entry.file
      else if p = c3Dest then some Entry.dir
      else none) ≠ some (Entry.symlink t)
    split_ifs <;> simp
  have hno2 : ∀ p t, c8cfs.entries p ≠ some (Entry.symlink t) := by
    intro p t
    show (if p = c3Src then some Entry.dir
      else if p = c3Src ++ ["a.md"] then some Entry.file
      else if p = c3Dest then some Entry.dir
      else none) ≠ some (Entry.symlink t)
    split_ifs <;> simp
  have hsk := roundtrip_restores_clean.1 c3env c8fs 2 c3Src c3Dest false [] ["alpha"]
    hno1 (by decide) (by decide) (by decide) (by decide) (by decide) (by decide)
    (by decide)
  have hmem1 : ("alpha", Outcome.Installed) ∈
      (install_skills c3env c8fs 2 c3Src c3Dest false []).report := by decide
  have hcm := roundtrip_restores_clean.2 c5wEnv c8cfs 2 c3Src c3Dest false []
    hno2 (by decide) (by decide) (by decide) (by decide) (by decide) (by decide)
  have hmem2 : ("a.md", Outcome.Installed) ∈
      (install_commands c5wEnv c8cfs 2 c3Src c3Dest false []).report := by decide
  exact ⟨hno1, by decide, by decide, by decide, by decide, by decide, by decide,
    by decide, hsk.1, hsk.2.1, hsk.2.2.1, hmem1, (hsk.2.2.2 "alpha" hmem1).1,
    (hsk.2.2.2 "alpha" hmem1).2.1, hno2, by decide, by decide, by decide,
    hcm.1, hcm.2.2.1, (hcm.2.2.2 "a.md" hmem2).1⟩

-- THEOREMS-MARK

end ManageSkills
